import Mathlib

/-!
# ViennaCL: GEMV autotuner driver and native BLAS dispatch

A shallow embedding of `examples/autotuner/gemv_autotuning.cpp` and
`viennacl/backend/blas.hpp`, followed by theorems about the embedded code.

Conventions.
* `unsigned int` is 32 bits wide: a counter is a `Nat` below `2 ^ 32` and every
  update is reduced modulo `UINT_MOD`.
* `int` is 32 bits wide, two's complement: `to_int` is the conversion applied
  when an `unsigned int` is stored into a `std::vector<int>`.
* A loop is a function of a fuel argument; `none` means that the fuel ran out
  before the loop condition became false.
-/

namespace ViennaCL

/-! ## Interval expansion loops of `run_autotune` -/

/-- Number of values of the C++ type `unsigned int`. -/
def UINT_MOD : Nat := 2 ^ 32

/-- Conversion from `unsigned int` to `int`, as performed by `push_back(i)` on a
`std::vector<int>` when `i` is an `unsigned int`. -/
def to_int (i : Nat) : Int :=
  if i < 2 ^ 31 then (i : Int) else (i : Int) - 2 ^ 32

/-- The loop `for(unsigned int i = tmp[0] ; i <= tmp[1] ; i*=2) v.push_back(i);`
of `run_autotune` (lines 146-148), in state `(i, v)`, with `max = tmp[1]`. -/
def pow2_loop : Nat → Nat → Nat → List Int → Option (List Int)
  | 0, _, _, _ => none
  | fuel + 1, i, max, v =>
    if i ≤ max then pow2_loop fuel (i * 2 % UINT_MOD) max (v ++ [to_int i])
    else some v

/-- The loop `for(unsigned int i = tmp[0] ; i <= tmp[1] ; i+=tmp[2]) v.push_back(i);`
of `run_autotune` (line 149), in state `(i, v)`, with `max = tmp[1]`, `step = tmp[2]`. -/
def step_loop : Nat → Nat → Nat → Nat → List Int → Option (List Int)
  | 0, _, _, _, _ => none
  | fuel + 1, i, max, step, v =>
    if i ≤ max then step_loop fuel ((i + step) % UINT_MOD) max step (v ++ [to_int i])
    else some v

/-- What the specification promises of the geometric expansion of `(min, max)`:
the sequence starts at `min`, is strictly increasing, each element is twice the
previous one, the last element is at most `max` and its double exceeds `max`. -/
def GeometricExpansion (min max : Nat) (xs : List Int) : Prop :=
  xs.head? = some (min : Int) ∧
  xs.Sorted (fun a b => a < b) ∧
  xs.Chain' (fun a b => b = 2 * a) ∧
  ∃ l, xs.getLast? = some l ∧ l ≤ (max : Int) ∧ (max : Int) < 2 * l

/-- What the specification promises of the arithmetic expansion of
`(min, max, step)`: the values `min + k * step` for `k = 0, …, (max - min) / step`. -/
def arithmetic_sequence (min max step : Nat) : List Int :=
  (List.range ((max - min) / step + 1)).map (fun k => ((min + k * step : Nat) : Int))

/-- Invariant of the doubling loop entered with counter `i`: what the values
pushed from that point on look like. -/
def PushedFrom (i max : Nat) (ys : List Int) : Prop :=
  (i ≤ max → ys.head? = some (i : Int)) ∧
  (max < i → ys = []) ∧
  ys.Chain' (fun a b => b = 2 * a ∧ a < b) ∧
  (∀ y ∈ ys, (i : Int) ≤ y) ∧
  (∀ l, ys.getLast? = some l → l ≤ (max : Int) ∧ (max : Int) < 2 * l)

/-- The value of the counter `i` of the doubling loop after `k` executions of
`i*=2`, starting from `i = min` (lines 146-148), on `unsigned int`. -/
def pow2_counter (min : Nat) : Nat → Nat
  | 0 => min
  | k + 1 => pow2_counter min k * 2 % UINT_MOD

/-! ## Result map and final report of `run_autotune` -/

/-- The container `std::map<double, profile_type> timings` (line 142): its
entries in iteration order. The container keeps its keys strictly ascending.
Durations are timer readings (never NaN), so the key type is a linear order. -/
structure timings_map (K V : Type) [LinearOrder K] where
  entries : List (K × V)
  ascending : entries.Chain' (fun a b => a.1 < b.1)

/-- The lookup `std::map::find`: the value stored under a key, if any. -/
def timings_map.find {K V : Type} [LinearOrder K] (t : timings_map K V) (d : K) : Option V :=
  (t.entries.find? (fun e => decide (e.1 = d))).map (fun e => e.2)

/-- The empty map. -/
def timings_map.empty {K V : Type} [LinearOrder K] : timings_map K V :=
  ⟨[], List.chain'_nil⟩

/-- A result map with three timings, used to exercise the report. -/
def sample_timings : timings_map Nat String :=
  ⟨[(3, "a"), (5, "b"), (9, "c")], by simp⟩

/-- What the end of a sweep can tell the user, in the vocabulary of the
specification: the best profile with its duration, or that no viable
configuration was found. -/
inductive Report (K V : Type) where
  | best_profile (duration : K) (profile : V)
  | no_viable_profile
  deriving DecidableEq

/-- The report printed by `run_autotune` after `autotune::benchmark` returns
(lines 158-162): `" Best Profile : " << timings.begin()->first << " => " <<
timings.begin()->second`. There is no test for emptiness; `none` stands for the
dereference of `timings.begin()` when it equals `timings.end()`, for which C++
defines no behaviour. -/
def run_autotune_report {K V : Type} [LinearOrder K] (t : timings_map K V) :
    Option (Report K V) :=
  match t.entries with
  | [] => none
  | e :: _ => some (Report.best_profile e.1 e.2)

/-- Lines 158-162 of `run_autotune` with the read through `timings.begin()` made
explicit. There is no test for emptiness: the "Best Profile" line is always
built from `timings.begin()->first` and `timings.begin()->second`. On an empty
map `timings.begin()` equals `timings.end()` and C++ defines no behaviour for
the read; `past_end` stands for what that read yields, a pair of garbage values
(`some`) or no value because the program stops there (`none`). -/
def run_autotune_output {K V : Type} [LinearOrder K] (past_end : Option (K × V))
    (t : timings_map K V) : Option (Report K V) :=
  match t.entries with
  | [] => past_end.map (fun e => Report.best_profile e.1 e.2)
  | e :: _ => some (Report.best_profile e.1 e.2)

/-! ## Profile construction and forced key: `create_profile`, `make_key`, `make_statement` -/

/-- Modelled from the spec: `autotune::tuning_param` is declared in
`viennacl/generator/autotune.hpp`, which is not among the sources. "TuningParameter:
name, ordered sequence of candidate integer values, currently-selected value." -/
structure tuning_param where
  values : List Int
  current : Int
  deriving DecidableEq, Repr

/-- Modelled from the spec: the profile type `vector_reduction` is declared in the
generator headers, which are not among the sources. Its constructor takes four
values: vector width, the two work-group dimensions, number of work groups. -/
structure vector_reduction where
  vectorization : Int
  local_size1 : Int
  local_size2 : Int
  num_groups : Int
  deriving DecidableEq, Repr

/-- The exception `std::out_of_range` thrown by `std::map::at`. -/
inductive map_error where
  | out_of_range
  deriving DecidableEq, Repr

/-- The accessor `std::map<std::string, tuning_param>::at`: the mapped value, or
`std::out_of_range` when the key is absent. The map is given by its entries. -/
def map_at (params : List (String × tuning_param)) (key : String) :
    Except map_error tuning_param :=
  match params.lookup key with
  | some p => Except.ok p
  | none => Except.error map_error.out_of_range

/-- The function `blas2_config<ScalarType>::create_profile` (lines 117-119): the
four parameters are looked up with `at` and their current values are passed to the
constructor of the profile. -/
def create_profile (params : List (String × tuning_param)) :
    Except map_error vector_reduction := do
  let vector ← map_at params "vector"
  let local_size1 ← map_at params "local_size1"
  let local_size2 ← map_at params "local_size2"
  let num_groups ← map_at params "num_groups"
  return ⟨vector.current, local_size1.current, local_size2.current, num_groups.current⟩

/-- The record `struct autotuner_options` (lines 43-56). -/
structure autotuner_options where
  layout : String
  scalartype : String
  output_name : String
  requested_device : Nat
  vector_interval : String
  local_size_1_interval : String
  local_size_2_interval : String
  num_groups_interval : String

/-- The template argument `ScalarType` of `make_key`, `make_statement` and
`run_autotune`: instantiated with `float` and `double` only (lines 197-200). -/
inductive ScalarType where
  | float
  | double
  deriving DecidableEq, Repr

/-- The value of `sizeof(ScalarType)`: 4 bytes for `float`, 8 for `double`. -/
def sizeof : ScalarType → Nat
  | ScalarType.float => 4
  | ScalarType.double => 8

/-- The two enumerators of the generator's `expression_type` that `make_key`
uses; the enumeration itself is declared in headers that are not among the
sources. -/
inductive expression_type where
  | VECTOR_REDUCE_Nx_TYPE
  | VECTOR_REDUCE_Tx_TYPE
  deriving DecidableEq, Repr

/-- The type `code_generator::forced_profile_key_type`: a pair (expression type,
scalar size). -/
abbrev forced_profile_key_type := expression_type × Nat

/-- The function `make_key<ScalarType>` (lines 127-130). -/
def make_key (S : ScalarType) (options : autotuner_options) : forced_profile_key_type :=
  if options.layout = "Nx" then (expression_type.VECTOR_REDUCE_Nx_TYPE, sizeof S)
  else (expression_type.VECTOR_REDUCE_Tx_TYPE, sizeof S)

/-- The right-hand sides that `make_statement` builds: `prod(A, x)` and
`prod(trans(A), x)`. -/
inductive prod_expression (Mat Vec : Type) where
  | prod (A : Mat) (x : Vec)
  | prod_trans (A : Mat) (x : Vec)
  deriving DecidableEq

/-- A `viennacl::scheduler::statement` of the shape built by `make_statement`:
`lhs = rhs` with `op_assign`. -/
structure statement (Mat Vec : Type) where
  lhs : Vec
  rhs : prod_expression Mat Vec
  deriving DecidableEq

/-- The function `make_statement<ScalarType>` (lines 133-136). -/
def make_statement {Mat Vec : Type} (options : autotuner_options) (y : Vec) (A : Mat)
    (x : Vec) : statement Mat Vec :=
  if options.layout = "Nx" then ⟨y, prod_expression.prod A x⟩
  else ⟨y, prod_expression.prod_trans A x⟩

/-! ## Device selection in `main` -/

/-- The calls of `run_autotune` made on the selected device (lines 197-200):
`run_autotune<float>` when the scalar type option is `"float"`,
`run_autotune<double>` when it is `"double"`, none otherwise. Each call is
recorded as the scalar type it is instantiated with and the device it is given. -/
def main_dispatch {Dev : Type} (options : autotuner_options) (dev : Dev) :
    List (ScalarType × Dev) :=
  if options.scalartype = "float" then [(ScalarType.float, dev)]
  else if options.scalartype = "double" then [(ScalarType.double, dev)]
  else []

/-- One iteration of the inner loop of `main` (lines 177-203), in state
`(counter, runs)`, where `runs` lists the calls of `run_autotune` made so far.
The test is `counter++ == options.requested_device` on `unsigned int`. -/
def main_device_step {Dev : Type} (options : autotuner_options)
    (st : Nat × List (ScalarType × Dev)) (dev : Dev) : Nat × List (ScalarType × Dev) :=
  if st.1 = options.requested_device then
    ((st.1 + 1) % UINT_MOD, st.2 ++ main_dispatch options dev)
  else ((st.1 + 1) % UINT_MOD, st.2)

/-- The body of `main` after option parsing (lines 169-204): the outer loop over
the platforms, the inner loop over the devices of each platform. The result is
the list of `run_autotune` calls, in order. -/
def main {Dev : Type} (options : autotuner_options) (platforms : List (List Dev)) :
    List (ScalarType × Dev) :=
  (platforms.foldl (fun st devices => devices.foldl (main_device_step options) st)
    (0, [])).2

/-! ## Native BLAS dispatch (`viennacl/backend/blas.hpp`)

Matrix storage is a function from element offsets to scalars; a pointer is a
storage together with an offset, so `Ap + A.off` is the pair `(Ap, A.off)`.
`vcl_size_t` values are offsets and extents inside allocated storage and are
modelled in `Nat`. The dimension and leading-dimension parameters of the external
routines are of type `int`: a `vcl_size_t` passed to them goes through
`size_to_int`. The scalar type `R` stands for `float` and `double` at exact
arithmetic. -/

/-- The four members of `detail::matrix_blas_wrapper<TransposeType>` (lines 54-57). -/
structure matrix_blas_wrapper (T : Type) where
  ld : Nat
  off : Nat
  trans : T
  negtrans : T

/-- The constructor of `matrix_blas_wrapper` (lines 45-53). -/
def matrix_blas_wrapper.init {T : Type} [DecidableEq T] (_trans _notrans : T)
    (is_row_major is_transposed : Bool)
    (internal_size1 internal_size2 start1 start2 stride1 stride2 : Nat) :
    matrix_blas_wrapper T :=
  let trans := if !(xor is_transposed is_row_major) then _trans else _notrans
  let negtrans := if trans = _trans then _notrans else _trans
  { trans := trans
    negtrans := negtrans
    ld := if is_row_major then stride1 * internal_size2 else stride2 * internal_size1
    off := if is_row_major then start1 * internal_size2 + start2
           else start2 * internal_size1 + start1 }

/-- The parameter list shared by the four `gemm` wrappers (lines 70-78), as a
record; `Ap`, `Bp`, `Cp` are the storages the three pointers point into. -/
structure gemm_args (R : Type) where
  C_row_major : Bool
  A_row_major : Bool
  B_row_major : Bool
  is_A_trans : Bool
  is_B_trans : Bool
  M : Nat
  N : Nat
  K : Nat
  alpha : R
  Ap : Nat → R
  A_internal_size1 : Nat
  A_internal_size2 : Nat
  A_start1 : Nat
  A_start2 : Nat
  A_inc1 : Nat
  A_inc2 : Nat
  Bp : Nat → R
  B_internal_size1 : Nat
  B_internal_size2 : Nat
  B_start1 : Nat
  B_start2 : Nat
  B_inc1 : Nat
  B_inc2 : Nat
  beta : R
  Cp : Nat → R
  C_internal_size1 : Nat
  C_internal_size2 : Nat
  C_start1 : Nat
  C_start2 : Nat
  C_inc1 : Nat
  C_inc2 : Nat

/-- The enumeration `CBLAS_ORDER` of `cblas.h`. -/
inductive CBLAS_ORDER where
  | CblasRowMajor
  | CblasColMajor
  deriving DecidableEq, Repr

/-- The enumeration `CBLAS_TRANSPOSE` of `cblas.h`. -/
inductive CBLAS_TRANSPOSE where
  | CblasNoTrans
  | CblasTrans
  | CblasConjTrans
  deriving DecidableEq, Repr

/-- Conversion of a `vcl_size_t` argument to an `int` parameter, as happens where
the wrappers pass `M`, `N`, `K` and the leading dimensions to the external
routines (lines 88-90, 120-122, 157-159, 189-191): the value is reduced modulo
`2 ^ 32` and read as a two's complement number. -/
def size_to_int (x : Nat) : Int := to_int (x % UINT_MOD)

/-- The signature of `cblas_sgemm` / `cblas_dgemm`: order, the two transpose
flags, `M N K` (`int`), `alpha`, pointer and leading dimension (`int`) of the
first and of the second operand, `beta`, pointer and leading dimension (`int`)
of the result. The value is the result storage after the call. -/
abbrev cblas_gemm_routine (R : Type) :=
  CBLAS_ORDER → CBLAS_TRANSPOSE → CBLAS_TRANSPOSE → Int → Int → Int → R →
    (Nat → R) × Nat → Int → (Nat → R) × Nat → Int → R → (Nat → R) × Nat → Int → (Nat → R)

/-- The signature of `cublasSgemm` / `cublasDgemm` (legacy API, character flags,
`int` dimensions and leading dimensions). -/
abbrev cublas_gemm_routine (R : Type) :=
  Char → Char → Int → Int → Int → R →
    (Nat → R) × Nat → Int → (Nat → R) × Nat → Int → R → (Nat → R) × Nat → Int → (Nat → R)

/-- The functions `cblas_wrapper<float>::gemm` and `cblas_wrapper<double>::gemm` (lines 79-93
and 111-125), which differ in the scalar type and in the routine they call
(`cblas_sgemm`, `cblas_dgemm`), passed here as `cblas_gemm`. The `vcl_size_t`
values `M`, `N`, `K` and the leading dimensions are converted to the `int`
parameters of the routine. The value is the returned flag and the storage of `C`
after the call. -/
def cblas_wrapper_gemm {R : Type} (cblas_gemm : cblas_gemm_routine R) (g : gemm_args R) :
    Bool × (Nat → R) :=
  if g.A_inc1 ≠ 1 ∨ g.A_inc2 ≠ 1 ∨ g.B_inc1 ≠ 1 ∨ g.B_inc2 ≠ 1 ∨ g.C_inc1 ≠ 1 ∨ g.C_inc2 ≠ 1 then
    (false, g.Cp)
  else
    let A := matrix_blas_wrapper.init CBLAS_TRANSPOSE.CblasTrans CBLAS_TRANSPOSE.CblasNoTrans
      g.A_row_major g.is_A_trans g.A_internal_size1 g.A_internal_size2 g.A_start1 g.A_start2
      g.A_inc1 g.A_inc2
    let B := matrix_blas_wrapper.init CBLAS_TRANSPOSE.CblasTrans CBLAS_TRANSPOSE.CblasNoTrans
      g.B_row_major g.is_B_trans g.B_internal_size1 g.B_internal_size2 g.B_start1 g.B_start2
      g.B_inc1 g.B_inc2
    let C := matrix_blas_wrapper.init CBLAS_TRANSPOSE.CblasTrans CBLAS_TRANSPOSE.CblasNoTrans
      g.C_row_major false g.C_internal_size1 g.C_internal_size2 g.C_start1 g.C_start2
      g.C_inc1 g.C_inc2
    if g.C_row_major then
      (true, cblas_gemm CBLAS_ORDER.CblasColMajor B.trans A.trans
        (size_to_int g.N) (size_to_int g.M) (size_to_int g.K) g.alpha
        (g.Bp, B.off) (size_to_int B.ld) (g.Ap, A.off) (size_to_int A.ld) g.beta
        (g.Cp, C.off) (size_to_int C.ld))
    else
      (true, cblas_gemm CBLAS_ORDER.CblasColMajor A.negtrans B.negtrans
        (size_to_int g.M) (size_to_int g.N) (size_to_int g.K) g.alpha
        (g.Ap, A.off) (size_to_int A.ld) (g.Bp, B.off) (size_to_int B.ld) g.beta
        (g.Cp, C.off) (size_to_int C.ld))

/-- The functions `cublas_wrapper<float>::gemm` and `cublas_wrapper<double>::gemm` (lines
148-162 and 180-194), which differ in the scalar type and in the routine they
call (`cublasSgemm`, `cublasDgemm`), passed here as `cublas_gemm`; the
`vcl_size_t` values are converted to its `int` parameters. -/
def cublas_wrapper_gemm {R : Type} (cublas_gemm : cublas_gemm_routine R) (g : gemm_args R) :
    Bool × (Nat → R) :=
  if g.A_inc1 ≠ 1 ∨ g.A_inc2 ≠ 1 ∨ g.B_inc1 ≠ 1 ∨ g.B_inc2 ≠ 1 ∨ g.C_inc1 ≠ 1 ∨ g.C_inc2 ≠ 1 then
    (false, g.Cp)
  else
    let A := matrix_blas_wrapper.init 'T' 'N'
      g.A_row_major g.is_A_trans g.A_internal_size1 g.A_internal_size2 g.A_start1 g.A_start2
      g.A_inc1 g.A_inc2
    let B := matrix_blas_wrapper.init 'T' 'N'
      g.B_row_major g.is_B_trans g.B_internal_size1 g.B_internal_size2 g.B_start1 g.B_start2
      g.B_inc1 g.B_inc2
    let C := matrix_blas_wrapper.init 'T' 'N'
      g.C_row_major false g.C_internal_size1 g.C_internal_size2 g.C_start1 g.C_start2
      g.C_inc1 g.C_inc2
    if g.C_row_major then
      (true, cublas_gemm B.trans A.trans
        (size_to_int g.N) (size_to_int g.M) (size_to_int g.K) g.alpha
        (g.Bp, B.off) (size_to_int B.ld) (g.Ap, A.off) (size_to_int A.ld) g.beta
        (g.Cp, C.off) (size_to_int C.ld))
    else
      (true, cublas_gemm A.negtrans B.negtrans
        (size_to_int g.M) (size_to_int g.N) (size_to_int g.K) g.alpha
        (g.Ap, A.off) (size_to_int A.ld) (g.Bp, B.off) (size_to_int B.ld) g.beta
        (g.Cp, C.off) (size_to_int C.ld))

/-! ### Reference semantics of the external routines

The BLAS routines are not part of the repository. The definitions below follow
the reference implementation of `xGEMM` (column-major storage): argument
checks first, then `C := alpha * op(A) * op(B) + beta * C` on the `m × n` block
at the result pointer. -/

/-- Element `(i, j)` of `op(X)` for a column-major operand at pointer `x` with
leading dimension `ldx`: `X(i, j)` when `tr` is false, `X(j, i)` when it is
true, where `X(r, c)` is stored at offset `r + c * ldx` from the pointer. -/
def blas_op {R : Type} (tr : Bool) (x : (Nat → R) × Nat) (ldx : Nat) (i j : Nat) : R :=
  if tr then x.1 (x.2 + (j + i * ldx)) else x.1 (x.2 + (i + j * ldx))

/-- Storing `val i j` at offset `i + j * ldc` from `c_off`, for `j = 0, …, n - 1`
(outer loop) and `i = 0, …, m - 1` (inner loop). -/
def write_block {R : Type} (m n : Nat) (val : Nat → Nat → R) (c_off ldc : Nat)
    (c : Nat → R) : Nat → R :=
  (List.range n).foldl
    (fun mem j => (List.range m).foldl
      (fun mem' i => Function.update mem' (c_off + (i + j * ldc)) (val i j)) mem) c

/-- Reference `xGEMM` with decoded transpose flags, on non-negative dimensions
and leading dimensions. The routine returns without
touching `C` when a leading dimension is too small (`lda < max(1, nrowa)`,
`ldb < max(1, nrowb)`, `ldc < max(1, m)`, where `nrowa`, `nrowb` are the row
counts of the stored operands); otherwise entry `(i, j)` of the result block
becomes `alpha * Σ_l op(A)(i, l) * op(B)(l, j) + beta * C(i, j)`. The operands
`a` and `b` are read-only and distinct from the result storage. -/
def ref_gemm {R : Type} [CommRing R] (transa transb : Bool) (m n k : Nat) (alpha : R)
    (a : (Nat → R) × Nat) (lda : Nat) (b : (Nat → R) × Nat) (ldb : Nat) (beta : R)
    (c : (Nat → R) × Nat) (ldc : Nat) : Nat → R :=
  if lda < max 1 (if transa then k else m) ∨ ldb < max 1 (if transb then n else k) ∨
      ldc < max 1 m then c.1
  else
    write_block m n
      (fun i j => alpha * (∑ l in Finset.range k, blas_op transa a lda i l * blas_op transb b ldb l j)
        + beta * c.1 (c.2 + (i + j * ldc)))
      c.2 ldc c.1

/-- Reference `xGEMM` on `int` arguments: the routine returns without touching
`C` when `m`, `n` or `k` is negative; otherwise it is `ref_gemm` (a negative
leading dimension fails the leading-dimension test there). -/
def ref_gemm_checked {R : Type} [CommRing R] (transa transb : Bool) (m n k : Int) (alpha : R)
    (a : (Nat → R) × Nat) (lda : Int) (b : (Nat → R) × Nat) (ldb : Int) (beta : R)
    (c : (Nat → R) × Nat) (ldc : Int) : Nat → R :=
  if m < 0 ∨ n < 0 ∨ k < 0 then c.1
  else ref_gemm transa transb m.toNat n.toNat k.toNat alpha a lda.toNat b ldb.toNat beta
    c ldc.toNat

/-- Reference semantics of `cblas_sgemm` / `cblas_dgemm`: for `CblasColMajor`
the column-major routine itself; for `CblasRowMajor` the column-major routine on
the swapped operands. A conjugate transpose of real data is a transpose. -/
def cblas_ref_gemm {R : Type} [CommRing R] : cblas_gemm_routine R :=
  fun order transa transb m n k alpha a lda b ldb beta c ldc =>
    match order with
    | CBLAS_ORDER.CblasColMajor =>
      ref_gemm_checked (decide (transa ≠ CBLAS_TRANSPOSE.CblasNoTrans))
        (decide (transb ≠ CBLAS_TRANSPOSE.CblasNoTrans)) m n k alpha a lda b ldb beta c ldc
    | CBLAS_ORDER.CblasRowMajor =>
      ref_gemm_checked (decide (transb ≠ CBLAS_TRANSPOSE.CblasNoTrans))
        (decide (transa ≠ CBLAS_TRANSPOSE.CblasNoTrans)) n m k alpha b ldb a lda beta c ldc

/-- Decoding of a character transpose flag: `'N'`/`'n'` is no transpose,
`'T'`/`'t'`/`'C'`/`'c'` is transpose, anything else is illegal. -/
def char_trans (ch : Char) : Option Bool :=
  if ch = 'N' ∨ ch = 'n' then some false
  else if ch = 'T' ∨ ch = 't' ∨ ch = 'C' ∨ ch = 'c' then some true
  else none

/-- Reference semantics of `cublasSgemm` / `cublasDgemm`: the column-major
routine; an illegal flag makes the routine return without touching `C`. -/
def cublas_ref_gemm {R : Type} [CommRing R] : cublas_gemm_routine R :=
  fun transa transb m n k alpha a lda b ldb beta c ldc =>
    match char_trans transa, char_trans transb with
    | some ta, some tb => ref_gemm_checked ta tb m n k alpha a lda b ldb beta c ldc
    | _, _ => c.1

/-! ### The product requested from `gemm` -/

/-- Offset of element `(i, j)` of the sub-matrix starting at `(start1, start2)`
in the storage order of a matrix with the given internal sizes and unit strides:
row `start1 + i`, column `start2 + j`. -/
def mat_index (row_major : Bool) (internal_size1 internal_size2 start1 start2 i j : Nat) : Nat :=
  if row_major then (start1 + i) * internal_size2 + (start2 + j)
  else (start1 + i) + (start2 + j) * internal_size1

/-- Element `(i, l)` of `op(A)`: `A` transposed when `is_A_trans`. -/
def gemm_args.opA {R : Type} (g : gemm_args R) (i l : Nat) : R :=
  if g.is_A_trans then
    g.Ap (mat_index g.A_row_major g.A_internal_size1 g.A_internal_size2 g.A_start1 g.A_start2 l i)
  else
    g.Ap (mat_index g.A_row_major g.A_internal_size1 g.A_internal_size2 g.A_start1 g.A_start2 i l)

/-- Element `(l, j)` of `op(B)`: `B` transposed when `is_B_trans`. -/
def gemm_args.opB {R : Type} (g : gemm_args R) (l j : Nat) : R :=
  if g.is_B_trans then
    g.Bp (mat_index g.B_row_major g.B_internal_size1 g.B_internal_size2 g.B_start1 g.B_start2 j l)
  else
    g.Bp (mat_index g.B_row_major g.B_internal_size1 g.B_internal_size2 g.B_start1 g.B_start2 l j)

/-- Offset of element `(i, j)` of the result block in the storage of `C`. -/
def gemm_args.C_index {R : Type} (g : gemm_args R) (i j : Nat) : Nat :=
  mat_index g.C_row_major g.C_internal_size1 g.C_internal_size2 g.C_start1 g.C_start2 i j

/-- The result storage `C'` holds `alpha * op(A) * op(B) + beta * C` in the
`M × N` block of `C` that starts at `(C_start1, C_start2)`. -/
def gemm_args.product_written {R : Type} [CommRing R] (g : gemm_args R) (C' : Nat → R) : Prop :=
  ∀ i < g.M, ∀ j < g.N,
    C' (g.C_index i j) =
      g.alpha * (∑ l in Finset.range g.K, g.opA i l * g.opB l j) + g.beta * g.Cp (g.C_index i j)

/-- All six strides are 1. -/
def gemm_args.unit_strides {R : Type} (g : gemm_args R) : Prop :=
  g.A_inc1 = 1 ∧ g.A_inc2 = 1 ∧ g.B_inc1 = 1 ∧ g.B_inc2 = 1 ∧ g.C_inc1 = 1 ∧ g.C_inc2 = 1

instance {R : Type} (g : gemm_args R) : Decidable g.unit_strides :=
  inferInstanceAs (Decidable (g.A_inc1 = 1 ∧ g.A_inc2 = 1 ∧ g.B_inc1 = 1 ∧ g.B_inc2 = 1 ∧
    g.C_inc1 = 1 ∧ g.C_inc2 = 1))

/-- A `rows × cols` block fits the internal size of its matrix along the
contiguous direction (columns for row-major, rows for column-major), and that
internal size is at least 1. -/
def block_fits (row_major : Bool) (internal_size1 internal_size2 rows cols : Nat) : Prop :=
  if row_major then max 1 cols ≤ internal_size2 else max 1 rows ≤ internal_size1

instance (row_major : Bool) (internal_size1 internal_size2 rows cols : Nat) :
    Decidable (block_fits row_major internal_size1 internal_size2 rows cols) :=
  inferInstanceAs (Decidable (if row_major then max 1 cols ≤ internal_size2
    else max 1 rows ≤ internal_size1))

/-- The blocks of `A`, `B` and `C` used by the product fit their matrices: the
stored block of `A` is `M × K` (`K × M` when transposed), that of `B` is `K × N`
(`N × K` when transposed), that of `C` is `M × N`. -/
def gemm_args.blocks_fit {R : Type} (g : gemm_args R) : Prop :=
  block_fits g.A_row_major g.A_internal_size1 g.A_internal_size2
    (if g.is_A_trans then g.K else g.M) (if g.is_A_trans then g.M else g.K) ∧
  block_fits g.B_row_major g.B_internal_size1 g.B_internal_size2
    (if g.is_B_trans then g.N else g.K) (if g.is_B_trans then g.K else g.N) ∧
  block_fits g.C_row_major g.C_internal_size1 g.C_internal_size2 g.M g.N

instance {R : Type} (g : gemm_args R) : Decidable g.blocks_fit :=
  inferInstanceAs (Decidable (
    block_fits g.A_row_major g.A_internal_size1 g.A_internal_size2
      (if g.is_A_trans then g.K else g.M) (if g.is_A_trans then g.M else g.K) ∧
    block_fits g.B_row_major g.B_internal_size1 g.B_internal_size2
      (if g.is_B_trans then g.N else g.K) (if g.is_B_trans then g.K else g.N) ∧
    block_fits g.C_row_major g.C_internal_size1 g.C_internal_size2 g.M g.N))

/-- The dimensions `M`, `N`, `K` and the three leading dimensions (the internal
size along the contiguous direction, strides being 1) are below `2 ^ 31`, the
range in which the conversion to `int` keeps the value. -/
def gemm_args.int_range {R : Type} (g : gemm_args R) : Prop :=
  g.M < 2 ^ 31 ∧ g.N < 2 ^ 31 ∧ g.K < 2 ^ 31 ∧
  (if g.A_row_major then g.A_internal_size2 else g.A_internal_size1) < 2 ^ 31 ∧
  (if g.B_row_major then g.B_internal_size2 else g.B_internal_size1) < 2 ^ 31 ∧
  (if g.C_row_major then g.C_internal_size2 else g.C_internal_size1) < 2 ^ 31

instance {R : Type} (g : gemm_args R) : Decidable g.int_range :=
  inferInstanceAs (Decidable (g.M < 2 ^ 31 ∧ g.N < 2 ^ 31 ∧ g.K < 2 ^ 31 ∧
    (if g.A_row_major then g.A_internal_size2 else g.A_internal_size1) < 2 ^ 31 ∧
    (if g.B_row_major then g.B_internal_size2 else g.B_internal_size1) < 2 ^ 31 ∧
    (if g.C_row_major then g.C_internal_size2 else g.C_internal_size1) < 2 ^ 31))

/-- The result storage when the column-major reference routine is run on the
arguments that a `gemm` wrapper with flag values `_trans`, `_notrans` builds
(lines 83-90) before their conversion to `int`, the flags being decoded by
`dec`. -/
def wrapper_call {T R : Type} [DecidableEq T] [CommRing R] (_trans _notrans : T)
    (dec : T → Bool) (g : gemm_args R) : Nat → R :=
  let A := matrix_blas_wrapper.init _trans _notrans
    g.A_row_major g.is_A_trans g.A_internal_size1 g.A_internal_size2 g.A_start1 g.A_start2
    g.A_inc1 g.A_inc2
  let B := matrix_blas_wrapper.init _trans _notrans
    g.B_row_major g.is_B_trans g.B_internal_size1 g.B_internal_size2 g.B_start1 g.B_start2
    g.B_inc1 g.B_inc2
  let C := matrix_blas_wrapper.init _trans _notrans
    g.C_row_major false g.C_internal_size1 g.C_internal_size2 g.C_start1 g.C_start2
    g.C_inc1 g.C_inc2
  if g.C_row_major then
    ref_gemm (dec B.trans) (dec A.trans) g.N g.M g.K g.alpha
      (g.Bp, B.off) B.ld (g.Ap, A.off) A.ld g.beta (g.Cp, C.off) C.ld
  else
    ref_gemm (dec A.negtrans) (dec B.negtrans) g.M g.N g.K g.alpha
      (g.Ap, A.off) A.ld (g.Bp, B.off) B.ld g.beta (g.Cp, C.off) C.ld

/-- Decoding of `CBLAS_TRANSPOSE` flags for real data: anything but
`CblasNoTrans` transposes. -/
def cblas_dec (t : CBLAS_TRANSPOSE) : Bool := decide (t ≠ CBLAS_TRANSPOSE.CblasNoTrans)

/-- Decoding of the character flags `'T'` and `'N'`. -/
def char_dec (ch : Char) : Bool := decide (ch ≠ 'N')

/-- A request whose result block does not fit its matrix: `C` is row-major with
internal sizes `2 × 1`, while `M = N = 2`. `A` is the `2 × 1` matrix `(1, 2)ᵀ`,
`B` the `1 × 2` matrix `(1, 1)`, `alpha = 1`, `beta = 0`, all strides are 1. -/
def aliased_gemm_args : gemm_args Int :=
  { C_row_major := true, A_row_major := true, B_row_major := true
    is_A_trans := false, is_B_trans := false
    M := 2, N := 2, K := 1, alpha := 1
    Ap := fun p => (p : Int) + 1
    A_internal_size1 := 2, A_internal_size2 := 1
    A_start1 := 0, A_start2 := 0, A_inc1 := 1, A_inc2 := 1
    Bp := fun _ => 1
    B_internal_size1 := 1, B_internal_size2 := 2
    B_start1 := 0, B_start2 := 0, B_inc1 := 1, B_inc2 := 1
    beta := 0
    Cp := fun _ => 0
    C_internal_size1 := 2, C_internal_size2 := 1
    C_start1 := 0, C_start2 := 0, C_inc1 := 1, C_inc2 := 1 }

/-- A request with `M = 2 ^ 31` rows: all three matrices are column-major, `A` is
`2 ^ 31 × 1` with all entries 1, `B` is the `1 × 1` matrix `(1)`, `C` is
`2 ^ 31 × 1` with all entries 0, `alpha = 1`, `beta = 0`, all strides are 1 and
every block fits its matrix. -/
def narrowed_gemm_args : gemm_args Int :=
  { C_row_major := false, A_row_major := false, B_row_major := false
    is_A_trans := false, is_B_trans := false
    M := 2147483648, N := 1, K := 1, alpha := 1
    Ap := fun _ => 1
    A_internal_size1 := 2147483648, A_internal_size2 := 1
    A_start1 := 0, A_start2 := 0, A_inc1 := 1, A_inc2 := 1
    Bp := fun _ => 1
    B_internal_size1 := 1, B_internal_size2 := 1
    B_start1 := 0, B_start2 := 0, B_inc1 := 1, B_inc2 := 1
    beta := 0
    Cp := fun _ => 0
    C_internal_size1 := 2147483648, C_internal_size2 := 1
    C_start1 := 0, C_start2 := 0, C_inc1 := 1, C_inc2 := 1 }

/-- A well-formed request: `C = A * B` with `A = (1 2; 3 4)` row-major,
`B = (5 6; 7 8)` column-major, `C` row-major `2 × 2`, `alpha = 1`, `beta = 0`. -/
def sample_gemm_args : gemm_args Int :=
  { C_row_major := true, A_row_major := true, B_row_major := false
    is_A_trans := false, is_B_trans := false
    M := 2, N := 2, K := 2, alpha := 1
    Ap := fun p => (p : Int) + 1
    A_internal_size1 := 2, A_internal_size2 := 2
    A_start1 := 0, A_start2 := 0, A_inc1 := 1, A_inc2 := 1
    Bp := fun p => if p = 0 then 5 else if p = 1 then 7 else if p = 2 then 6 else 8
    B_internal_size1 := 2, B_internal_size2 := 2
    B_start1 := 0, B_start2 := 0, B_inc1 := 1, B_inc2 := 1
    beta := 0
    Cp := fun _ => 0
    C_internal_size1 := 2, C_internal_size2 := 2
    C_start1 := 0, C_start2 := 0, C_inc1 := 1, C_inc2 := 1 }

/-! ## Helper lemmas for the interval expansion loops -/

theorem to_int_of_lt {i : Nat} (h : i < 2 ^ 31) : to_int i = (i : Int) := by
  unfold to_int
  rw [if_pos h]

theorem pow2_loop_more_fuel (max : Nat) :
    ∀ (f i : Nat) (v r : List Int), pow2_loop f i max v = some r →
      ∀ k, pow2_loop (f + k) i max v = some r := by
  intro f
  induction f with
  | zero => intro i v r h; simp [pow2_loop] at h
  | succ f ih =>
    intro i v r h k
    rw [Nat.add_right_comm, pow2_loop]
    rw [pow2_loop] at h
    by_cases hle : i ≤ max
    · rw [if_pos hle] at h ⊢
      exact ih _ _ _ h k
    · rw [if_neg hle] at h ⊢
      exact h

theorem step_loop_more_fuel (max step : Nat) :
    ∀ (f i : Nat) (v r : List Int), step_loop f i max step v = some r →
      ∀ k, step_loop (f + k) i max step v = some r := by
  intro f
  induction f with
  | zero => intro i v r h; simp [step_loop] at h
  | succ f ih =>
    intro i v r h k
    rw [Nat.add_right_comm, step_loop]
    rw [step_loop] at h
    by_cases hle : i ≤ max
    · rw [if_pos hle] at h ⊢
      exact ih _ _ _ h k
    · rw [if_neg hle] at h ⊢
      exact h

theorem pow2_loop_run (max : Nat) (hmax : max < 2 ^ 31) :
    ∀ n i v, 0 < i → max + 1 - i ≤ n →
      ∃ ys, pow2_loop (n + 1) i max v = some (v ++ ys) ∧ PushedFrom i max ys := by
  intro n
  induction n with
  | zero =>
    intro i v hi hn
    refine ⟨[], ?_, ?_⟩
    · have : ¬ i ≤ max := by omega
      simp [pow2_loop, this]
    · refine ⟨fun h => by omega, fun _ => rfl, List.chain'_nil, ?_, ?_⟩
      · intro y hy; simp at hy
      · intro l hl; simp at hl
  | succ n ih =>
    intro i v hi hn
    by_cases hle : i ≤ max
    · have hi31 : i < 2 ^ 31 := lt_of_le_of_lt hle hmax
      have hmod : i * 2 % UINT_MOD = 2 * i := by
        unfold UINT_MOD
        rw [Nat.mod_eq_of_lt (by omega)]; omega
      obtain ⟨ys, hrun, hhead, hnil, hchain, hge, hlast⟩ :=
        ih (2 * i) (v ++ [to_int i]) (by omega) (by omega)
      refine ⟨(i : Int) :: ys, ?_, ?_⟩
      · rw [pow2_loop, if_pos hle, hmod, hrun, to_int_of_lt hi31]
        simp
      · refine ⟨fun _ => rfl, fun h => by omega, ?_, ?_, ?_⟩
        · rw [List.chain'_cons']
          refine ⟨?_, hchain⟩
          intro y hy
          by_cases h2 : 2 * i ≤ max
          · rw [hhead h2] at hy
            have : y = ((2 * i : Nat) : Int) := by simpa using hy.symm
            subst this
            push_cast
            constructor <;> omega
          · rw [hnil (by omega)] at hy
            simp at hy
        · intro y hy
          rcases List.mem_cons.1 hy with rfl | hy
          · exact le_refl _
          · have := hge y hy
            push_cast at this
            omega
        · intro l hl
          by_cases h2 : 2 * i ≤ max
          · have hne : ys ≠ [] := by
              intro h
              have := hhead h2
              simp [h] at this
            obtain ⟨y, ys', rfl⟩ := List.exists_cons_of_ne_nil hne
            rw [List.getLast?_cons_cons] at hl
            exact hlast l hl
          · rw [hnil (by omega)] at hl
            simp at hl
            subst hl
            constructor <;> omega
    · refine ⟨[], ?_, ?_⟩
      · simp [pow2_loop, hle]
      · refine ⟨fun h => absurd h hle, fun _ => rfl, List.chain'_nil, ?_, ?_⟩
        · intro y hy; simp at hy
        · intro l hl; simp at hl

theorem pow2_loop_stuck (max : Nat) (S : List Nat)
    (hS : ∀ i ∈ S, i ≤ max ∧ i * 2 % UINT_MOD ∈ S) :
    ∀ fuel i v, i ∈ S → pow2_loop fuel i max v = none := by
  intro fuel
  induction fuel with
  | zero => intro i v _; rfl
  | succ fuel ih =>
    intro i v hi
    rw [pow2_loop, if_pos (hS i hi).1]
    exact ih _ _ (hS i hi).2

theorem step_loop_run (max step : Nat) :
    ∀ c i v, i + c * step ≤ max → max < i + (c + 1) * step →
      i + c * step < 2 ^ 31 → i + (c + 1) * step < 2 ^ 32 →
      step_loop (c + 2) i max step v =
        some (v ++ (List.range (c + 1)).map (fun k => ((i + k * step : Nat) : Int))) := by
  intro c
  induction c with
  | zero =>
    intro i v h1 h2 h3 h4
    simp only [Nat.zero_mul, Nat.add_zero, Nat.zero_add, Nat.one_mul] at h1 h2 h3 h4
    have hmod : (i + step) % UINT_MOD = i + step := Nat.mod_eq_of_lt h4
    have hgt : ¬ i + step ≤ max := by omega
    rw [step_loop, if_pos h1, hmod, step_loop, if_neg hgt, to_int_of_lt h3]
    simp [List.range_succ]
  | succ c ih =>
    intro i v h1 h2 h3 h4
    have e1 : i + (c + 1) * step = i + step + c * step := by ring
    have e2 : i + (c + 1 + 1) * step = i + step + (c + 1) * step := by ring
    rw [e1] at h1 h3
    rw [e2] at h2 h4
    have hc : 0 ≤ c * step := Nat.zero_le _
    have hmod : (i + step) % UINT_MOD = i + step :=
      Nat.mod_eq_of_lt (by unfold UINT_MOD; omega)
    have hi : i ≤ max := by omega
    rw [step_loop, if_pos hi, hmod, ih (i + step) _ h1 h2 h3 h4,
      to_int_of_lt (by omega)]
    congr 1
    rw [List.append_assoc]
    congr 1
    rw [List.range_succ_eq_map (c + 1)]
    simp only [List.singleton_append, List.map_cons, List.map_map, Nat.zero_mul, Nat.add_zero]
    congr 1
    apply List.map_congr_left
    intro k _
    simp only [Function.comp]
    congr 1
    rw [Nat.succ_mul]
    omega

theorem pow2_loop_count (max : Nat) (hmax : max < 2 ^ 31) :
    ∀ d i v, 1 ≤ i → max + 1 - i ≤ d →
      ∃ n, pow2_loop (n + 1) i max v =
          some (v ++ (List.range n).map (fun k => ((i * 2 ^ k : Nat) : Int))) ∧
        (∀ k, k < n → i * 2 ^ k ≤ max) ∧ max < i * 2 ^ n := by
  intro d
  induction d with
  | zero =>
    intro i v hi hd
    refine ⟨0, ?_, fun k hk => absurd hk (Nat.not_lt_zero k), by omega⟩
    have hgt : ¬ i ≤ max := by omega
    rw [pow2_loop, if_neg hgt]
    simp
  | succ d ih =>
    intro i v hi hd
    by_cases hle : i ≤ max
    · have hi31 : i < 2 ^ 31 := lt_of_le_of_lt hle hmax
      have hmod : i * 2 % UINT_MOD = 2 * i := by
        unfold UINT_MOD
        rw [Nat.mod_eq_of_lt (by omega)]; omega
      obtain ⟨n, hrun, hall, hexit⟩ := ih (2 * i) (v ++ [to_int i]) (by omega) (by omega)
      have hpow : ∀ k, 2 * i * 2 ^ k = i * 2 ^ (k + 1) := by
        intro k; rw [Nat.pow_succ]; ring
      refine ⟨n + 1, ?_, ?_, ?_⟩
      · rw [pow2_loop, if_pos hle, hmod, hrun, to_int_of_lt hi31, List.append_assoc,
          List.range_succ_eq_map n]
        simp only [List.singleton_append, List.map_cons, List.map_map, Nat.pow_zero,
          Nat.mul_one]
        congr 3
        apply List.map_congr_left
        intro k _
        simp only [Function.comp]
        rw [hpow k]
      · intro k hk
        cases k with
        | zero => simpa using hle
        | succ k =>
          rw [← hpow k]
          exact hall k (by omega)
      · rw [← hpow n]
        exact hexit
    · refine ⟨0, ?_, fun k hk => absurd hk (Nat.not_lt_zero k), by omega⟩
      rw [pow2_loop, if_neg hle]
      simp

theorem pow2_counter_eq (min max : Nat) (hmax : max < 2 ^ 31) :
    ∀ k, (∀ j, j < k → min * 2 ^ j ≤ max) → pow2_counter min k = min * 2 ^ k := by
  intro k
  induction k with
  | zero => intro _; simp [pow2_counter]
  | succ k ih =>
    intro h
    have hk := h k (Nat.lt_succ_self k)
    rw [pow2_counter, ih (fun j hj => h j (Nat.lt_succ_of_lt hj)), Nat.pow_succ]
    unfold UINT_MOD
    rw [Nat.mod_eq_of_lt (by omega)]
    ring

/-! ## Helper lemma for the result map -/

theorem chain_head_le {K V : Type} [LinearOrder K] :
    ∀ (l : List (K × V)) (e : K × V), (e :: l).Chain' (fun a b => a.1 < b.1) →
      ∀ x ∈ e :: l, e.1 ≤ x.1 := by
  intro l
  induction l with
  | nil =>
    intro e _ x hx
    rw [List.mem_singleton.1 hx]
  | cons f l ih =>
    intro e h x hx
    rw [List.chain'_cons] at h
    rcases List.mem_cons.1 hx with rfl | hx
    · exact le_rfl
    · exact le_trans (le_of_lt h.1) (ih f h.2 x hx)

theorem run_autotune_output_of_nonempty {K V : Type} [LinearOrder K]
    (past_end : Option (K × V)) (t : timings_map K V) (hne : t.entries ≠ []) :
    run_autotune_output past_end t = run_autotune_report t := by
  obtain ⟨entries, hasc⟩ := t
  cases entries with
  | nil => exact absurd rfl hne
  | cons e l => rfl

/-! ## Helper lemmas for the device loops of `main` -/

theorem main_devices_fold {Dev : Type} (options : autotuner_options) :
    ∀ (devs : List Dev) (c : Nat) (runs : List (ScalarType × Dev)),
      c + devs.length ≤ UINT_MOD →
      devs.foldl (main_device_step options) (c % UINT_MOD, runs) =
        ((c + devs.length) % UINT_MOD,
          runs ++ (if c ≤ options.requested_device then
            (devs[options.requested_device - c]?).elim [] (main_dispatch options)
          else [])) := by
  intro devs
  induction devs with
  | nil =>
    intro c runs _
    simp
  | cons dev devs ih =>
    intro c runs h
    have hlen : c + 1 + devs.length ≤ UINT_MOD := by
      simp only [List.length_cons] at h; omega
    have hc : c % UINT_MOD = c := Nat.mod_eq_of_lt (by omega)
    have hcount : c + 1 + devs.length = c + (dev :: devs).length := by
      simp only [List.length_cons]; omega
    rw [List.foldl_cons]
    rcases Nat.lt_trichotomy c options.requested_device with hlt | heq | hgt
    · have hne : ¬ c = options.requested_device := by omega
      have hsub : options.requested_device - c = (options.requested_device - (c + 1)) + 1 := by
        omega
      rw [main_device_step, hc, if_neg hne, ih (c + 1) runs hlen, if_pos (by omega),
        if_pos (by omega), hsub, List.getElem?_cons_succ, hcount]
    · rw [main_device_step, hc, if_pos heq, ih (c + 1) _ hlen, if_neg (by omega),
        if_pos (by omega), hcount, heq]
      simp
    · have hne : ¬ c = options.requested_device := by omega
      rw [main_device_step, hc, if_neg hne, ih (c + 1) runs hlen, if_neg (by omega),
        if_neg (by omega), hcount]

theorem main_platforms_fold {Dev : Type} (options : autotuner_options) :
    ∀ (platforms : List (List Dev)) (c : Nat) (runs : List (ScalarType × Dev)),
      c + platforms.flatten.length ≤ UINT_MOD →
      platforms.foldl (fun st devices => devices.foldl (main_device_step options) st)
          (c % UINT_MOD, runs) =
        ((c + platforms.flatten.length) % UINT_MOD,
          runs ++ (if c ≤ options.requested_device then
            (platforms.flatten[options.requested_device - c]?).elim [] (main_dispatch options)
          else [])) := by
  intro platforms
  induction platforms with
  | nil =>
    intro c runs _
    simp
  | cons devs ps ih =>
    intro c runs h
    simp only [List.flatten_cons, List.length_append] at h ⊢
    rw [List.foldl_cons, main_devices_fold options devs c runs (by omega),
      ih (c + devs.length) _ (by omega), Nat.add_assoc, List.append_assoc]
    congr 2
    by_cases h1 : c ≤ options.requested_device
    · by_cases h2 : c + devs.length ≤ options.requested_device
      · have hsub : options.requested_device - (c + devs.length) =
            options.requested_device - c - devs.length := by omega
        rw [if_pos h1, if_pos h2, if_pos h1, List.getElem?_append_right (by omega),
          List.getElem?_eq_none (by omega : devs.length ≤ options.requested_device - c), hsub]
        simp
      · rw [if_pos h1, if_neg h2, if_pos h1, List.getElem?_append_left (by omega)]
        simp
    · rw [if_neg h1, if_neg (by omega), if_neg h1]
      simp

theorem main_wraps_after_uint_mod (l : List Unit) (hlen : l.length = 2 ^ 32) :
    main ⟨"Nx", "float", "out.dat", 0, "1,1", "2,64", "2,64", "1,1024,16"⟩ [l ++ [()]] =
      [(ScalarType.float, ()), (ScalarType.float, ())] := by
  have hfold := main_devices_fold
    ⟨"Nx", "float", "out.dat", 0, "1,1", "2,64", "2,64", "1,1024,16"⟩ l 0 []
    (by rw [hlen]; unfold UINT_MOD; omega)
  have hmod : (0 + l.length) % UINT_MOD = 0 := by
    rw [hlen, Nat.zero_add]; exact Nat.mod_self _
  rw [Nat.zero_mod, hmod] at hfold
  have h0 : l[0]? = some () := by
    rw [List.getElem?_eq_getElem (by rw [hlen]; exact Nat.pos_pow_of_pos 32 (by decide))]
  rw [main, List.foldl_cons, List.foldl_nil, List.foldl_append, hfold]
  simp only [le_refl, if_true, Nat.sub_self, h0, Option.elim, List.nil_append,
    List.foldl_cons, List.foldl_nil, main_device_step, main_dispatch]
  rfl

/-! ## Helper lemmas for the reference `xGEMM` -/

theorem write_col_miss {R : Type} (val : Nat → Nat → R) (off ldc j : Nat) :
    ∀ (m : Nat) (mem : Nat → R) (p : Nat), (∀ i < m, p ≠ off + (i + j * ldc)) →
      (List.range m).foldl
        (fun mem' i => Function.update mem' (off + (i + j * ldc)) (val i j)) mem p = mem p := by
  intro m
  induction m with
  | zero => intro mem p _; rfl
  | succ m ih =>
    intro mem p hp
    rw [List.range_succ, List.foldl_append, List.foldl_cons, List.foldl_nil,
      Function.update_noteq (hp m (Nat.lt_succ_self m))]
    exact ih mem p (fun i hi => hp i (Nat.lt_succ_of_lt hi))

theorem write_col_hit {R : Type} (val : Nat → Nat → R) (off ldc j : Nat) :
    ∀ (m : Nat) (mem : Nat → R) (i : Nat), i < m →
      (List.range m).foldl
        (fun mem' i => Function.update mem' (off + (i + j * ldc)) (val i j)) mem
        (off + (i + j * ldc)) = val i j := by
  intro m
  induction m with
  | zero => intro mem i hi; exact absurd hi (Nat.not_lt_zero i)
  | succ m ih =>
    intro mem i hi
    rw [List.range_succ, List.foldl_append, List.foldl_cons, List.foldl_nil]
    by_cases him : i = m
    · subst him
      rw [Function.update_same]
    · rw [Function.update_noteq (by omega)]
      exact ih mem i (by omega)

theorem write_block_miss {R : Type} (m : Nat) (val : Nat → Nat → R) (off ldc : Nat)
    (c : Nat → R) :
    ∀ (n : Nat) (p : Nat), (∀ j < n, ∀ i < m, p ≠ off + (i + j * ldc)) →
      write_block m n val off ldc c p = c p := by
  intro n
  induction n with
  | zero => intro p _; rfl
  | succ n ih =>
    intro p hp
    rw [write_block, List.range_succ, List.foldl_append, List.foldl_cons, List.foldl_nil,
      write_col_miss val off ldc n m _ p (hp n (Nat.lt_succ_self n))]
    exact ih p (fun j hj => hp j (Nat.lt_succ_of_lt hj))

theorem write_block_hit {R : Type} (m : Nat) (val : Nat → Nat → R) (off ldc : Nat)
    (c : Nat → R) (hld : m ≤ ldc) :
    ∀ (n : Nat) (i j : Nat), i < m → j < n →
      write_block m n val off ldc c (off + (i + j * ldc)) = val i j := by
  intro n
  induction n with
  | zero => intro i j _ hj; exact absurd hj (Nat.not_lt_zero j)
  | succ n ih =>
    intro i j hi hj
    rw [write_block, List.range_succ, List.foldl_append, List.foldl_cons, List.foldl_nil]
    by_cases hjn : j = n
    · subst hjn
      exact write_col_hit val off ldc j m _ i hi
    · have hjlt : j < n := by omega
      have hmul : (j + 1) * ldc ≤ n * ldc := Nat.mul_le_mul_right ldc hjlt
      rw [Nat.add_mul, Nat.one_mul] at hmul
      rw [write_col_miss val off ldc n m _ _ (by intro i' _; omega)]
      exact ih i j hi hjlt

theorem ref_gemm_entry {R : Type} [CommRing R] (transa transb : Bool) (m n k : Nat) (alpha : R)
    (a : (Nat → R) × Nat) (lda : Nat) (b : (Nat → R) × Nat) (ldb : Nat) (beta : R)
    (c : (Nat → R) × Nat) (ldc : Nat)
    (ha : max 1 (if transa then k else m) ≤ lda) (hb : max 1 (if transb then n else k) ≤ ldb)
    (hc : max 1 m ≤ ldc) (i j : Nat) (hi : i < m) (hj : j < n) :
    ref_gemm transa transb m n k alpha a lda b ldb beta c ldc (c.2 + (i + j * ldc)) =
      alpha * (∑ l in Finset.range k, blas_op transa a lda i l * blas_op transb b ldb l j)
        + beta * c.1 (c.2 + (i + j * ldc)) := by
  have hcond : ¬ (lda < max 1 (if transa then k else m) ∨
      ldb < max 1 (if transb then n else k) ∨ ldc < max 1 m) := by
    rintro (h | h | h) <;> omega
  rw [ref_gemm, if_neg hcond]
  exact write_block_hit m _ c.2 ldc c.1 (le_trans (le_max_right 1 m) hc) n i j hi hj

theorem ref_gemm_frame {R : Type} [CommRing R] (transa transb : Bool) (m n k : Nat) (alpha : R)
    (a : (Nat → R) × Nat) (lda : Nat) (b : (Nat → R) × Nat) (ldb : Nat) (beta : R)
    (c : (Nat → R) × Nat) (ldc : Nat) (p : Nat)
    (hp : ∀ j < n, ∀ i < m, p ≠ c.2 + (i + j * ldc)) :
    ref_gemm transa transb m n k alpha a lda b ldb beta c ldc p = c.1 p := by
  rw [ref_gemm]
  by_cases hcond : lda < max 1 (if transa then k else m) ∨
      ldb < max 1 (if transb then n else k) ∨ ldc < max 1 m
  · rw [if_pos hcond]
  · rw [if_neg hcond]
    exact write_block_miss m _ c.2 ldc c.1 n p hp

/-! ## Helper lemmas for `matrix_blas_wrapper` -/

theorem wrapper_negtrans_op {T R : Type} [DecidableEq T] (tT tN : T) (dec : T → Bool)
    (hT : dec tT = true) (hN : dec tN = false) (rm tr : Bool) (s1 s2 st1 st2 : Nat)
    (mem : Nat → R) (r c : Nat) :
    blas_op (dec (matrix_blas_wrapper.init tT tN rm tr s1 s2 st1 st2 1 1).negtrans)
        (mem, (matrix_blas_wrapper.init tT tN rm tr s1 s2 st1 st2 1 1).off)
        (matrix_blas_wrapper.init tT tN rm tr s1 s2 st1 st2 1 1).ld r c =
      if tr then mem (mat_index rm s1 s2 st1 st2 c r) else mem (mat_index rm s1 s2 st1 st2 r c) := by
  have hne : ¬ tN = tT := by
    intro h; rw [h, hT] at hN; exact Bool.noConfusion hN
  cases rm <;> cases tr <;>
    simp [matrix_blas_wrapper.init, blas_op, mat_index, hT, hN, hne] <;>
    congr 1 <;> ring

theorem wrapper_trans_op {T R : Type} [DecidableEq T] (tT tN : T) (dec : T → Bool)
    (hT : dec tT = true) (hN : dec tN = false) (rm tr : Bool) (s1 s2 st1 st2 : Nat)
    (mem : Nat → R) (r c : Nat) :
    blas_op (dec (matrix_blas_wrapper.init tT tN rm tr s1 s2 st1 st2 1 1).trans)
        (mem, (matrix_blas_wrapper.init tT tN rm tr s1 s2 st1 st2 1 1).off)
        (matrix_blas_wrapper.init tT tN rm tr s1 s2 st1 st2 1 1).ld r c =
      if tr then mem (mat_index rm s1 s2 st1 st2 r c) else mem (mat_index rm s1 s2 st1 st2 c r) := by
  cases rm <;> cases tr <;>
    simp [matrix_blas_wrapper.init, blas_op, mat_index, hT, hN] <;>
    congr 1 <;> ring

theorem wrapper_negtrans_ld {T : Type} [DecidableEq T] (tT tN : T) (dec : T → Bool)
    (hT : dec tT = true) (hN : dec tN = false) (rm tr : Bool) (s1 s2 st1 st2 r c : Nat)
    (hfit : block_fits rm s1 s2 (if tr then c else r) (if tr then r else c)) :
    max 1 (if dec (matrix_blas_wrapper.init tT tN rm tr s1 s2 st1 st2 1 1).negtrans
        then c else r) ≤
      (matrix_blas_wrapper.init tT tN rm tr s1 s2 st1 st2 1 1).ld := by
  have hne : ¬ tN = tT := by
    intro h; rw [h, hT] at hN; exact Bool.noConfusion hN
  cases rm <;> cases tr <;>
    simpa [matrix_blas_wrapper.init, block_fits, hT, hN, hne] using hfit

theorem wrapper_trans_ld {T : Type} [DecidableEq T] (tT tN : T) (dec : T → Bool)
    (hT : dec tT = true) (hN : dec tN = false) (rm tr : Bool) (s1 s2 st1 st2 r c : Nat)
    (hfit : block_fits rm s1 s2 (if tr then c else r) (if tr then r else c)) :
    max 1 (if dec (matrix_blas_wrapper.init tT tN rm tr s1 s2 st1 st2 1 1).trans
        then r else c) ≤
      (matrix_blas_wrapper.init tT tN rm tr s1 s2 st1 st2 1 1).ld := by
  cases rm <;> cases tr <;>
    simpa [matrix_blas_wrapper.init, block_fits, hT, hN] using hfit

theorem wrapper_C_index {T : Type} [DecidableEq T] (tT tN : T) (rm : Bool)
    (s1 s2 st1 st2 i j : Nat) :
    mat_index rm s1 s2 st1 st2 i j =
      (matrix_blas_wrapper.init tT tN rm false s1 s2 st1 st2 1 1).off +
        ((if rm then j else i) + (if rm then i else j) *
          (matrix_blas_wrapper.init tT tN rm false s1 s2 st1 st2 1 1).ld) := by
  cases rm <;> simp [matrix_blas_wrapper.init, mat_index] <;> ring

theorem wrapper_C_ld {T : Type} [DecidableEq T] (tT tN : T) (rm : Bool)
    (s1 s2 st1 st2 M N : Nat) (hfit : block_fits rm s1 s2 M N) :
    max 1 (if rm then N else M) ≤
      (matrix_blas_wrapper.init tT tN rm false s1 s2 st1 st2 1 1).ld := by
  cases rm <;> simpa [matrix_blas_wrapper.init, block_fits] using hfit

theorem wrapper_call_product {T R : Type} [DecidableEq T] [CommRing R] (tT tN : T)
    (dec : T → Bool) (hT : dec tT = true) (hN : dec tN = false) (g : gemm_args R)
    (hs : g.unit_strides) (hf : g.blocks_fit) :
    g.product_written (wrapper_call tT tN dec g) ∧
    ∀ p, (∀ i < g.M, ∀ j < g.N, p ≠ g.C_index i j) → wrapper_call tT tN dec g p = g.Cp p := by
  obtain ⟨a1, a2, b1, b2, c1, c2⟩ := hs
  obtain ⟨fA, fB, fC⟩ := hf
  have hC := wrapper_C_ld tT tN g.C_row_major g.C_internal_size1 g.C_internal_size2
    g.C_start1 g.C_start2 g.M g.N fC
  have hidx := wrapper_C_index tT tN g.C_row_major g.C_internal_size1 g.C_internal_size2
    g.C_start1 g.C_start2
  unfold wrapper_call
  rw [a1, a2, b1, b2, c1, c2]
  cases hrm : g.C_row_major
  · rw [hrm] at hC hidx
    simp only [Bool.false_eq_true, if_false] at hC hidx ⊢
    constructor
    · intro i hi j hj
      rw [gemm_args.C_index, hrm, hidx i j]
      rw [ref_gemm_entry _ _ _ _ _ _ _ _ _ _ _ _ _
        (wrapper_negtrans_ld tT tN dec hT hN _ _ _ _ _ _ g.M g.K fA)
        (wrapper_negtrans_ld tT tN dec hT hN _ _ _ _ _ _ g.K g.N fB) hC i j hi hj]
      congr 2
      apply Finset.sum_congr rfl
      intro l _
      rw [wrapper_negtrans_op tT tN dec hT hN, wrapper_negtrans_op tT tN dec hT hN]
      rfl
    · intro p hp
      apply ref_gemm_frame
      intro j hj i hi
      have := hp i hi j hj
      rw [gemm_args.C_index, hrm, hidx i j] at this
      exact this
  · rw [hrm] at hC hidx
    simp only [if_true] at hC hidx ⊢
    constructor
    · intro i hi j hj
      rw [gemm_args.C_index, hrm, hidx i j]
      rw [ref_gemm_entry _ _ _ _ _ _ _ _ _ _ _ _ _
        (wrapper_trans_ld tT tN dec hT hN _ _ _ _ _ _ g.K g.N fB)
        (wrapper_trans_ld tT tN dec hT hN _ _ _ _ _ _ g.M g.K fA) hC j i hj hi]
      congr 2
      apply Finset.sum_congr rfl
      intro l _
      rw [wrapper_trans_op tT tN dec hT hN, wrapper_trans_op tT tN dec hT hN, mul_comm]
      rfl
    · intro p hp
      apply ref_gemm_frame
      intro i hi j hj
      have := hp i hi j hj
      rw [gemm_args.C_index, hrm, hidx i j] at this
      exact this

theorem size_to_int_of_lt {x : Nat} (h : x < 2 ^ 31) : size_to_int x = (x : Int) := by
  unfold size_to_int UINT_MOD
  rw [Nat.mod_eq_of_lt (by omega), to_int_of_lt h]

theorem ref_gemm_checked_eq {R : Type} [CommRing R] (transa transb : Bool) (m n k : Nat)
    (alpha : R) (a : (Nat → R) × Nat) (lda : Nat) (b : (Nat → R) × Nat) (ldb : Nat) (beta : R)
    (c : (Nat → R) × Nat) (ldc : Nat) (hm : m < 2 ^ 31) (hn : n < 2 ^ 31) (hk : k < 2 ^ 31)
    (ha : lda < 2 ^ 31) (hb : ldb < 2 ^ 31) (hc : ldc < 2 ^ 31) :
    ref_gemm_checked transa transb (size_to_int m) (size_to_int n) (size_to_int k) alpha
        a (size_to_int lda) b (size_to_int ldb) beta c (size_to_int ldc) =
      ref_gemm transa transb m n k alpha a lda b ldb beta c ldc := by
  rw [size_to_int_of_lt hm, size_to_int_of_lt hn, size_to_int_of_lt hk, size_to_int_of_lt ha,
    size_to_int_of_lt hb, size_to_int_of_lt hc]
  have hcond : ¬ ((m : Int) < 0 ∨ (n : Int) < 0 ∨ (k : Int) < 0) := by omega
  rw [ref_gemm_checked, if_neg hcond]
  simp only [Int.toNat_ofNat]

theorem wrapper_ld_lt {T : Type} [DecidableEq T] (tT tN : T) (rm tr : Bool)
    (s1 s2 st1 st2 i1 i2 : Nat) (h1 : i1 = 1) (h2 : i2 = 1)
    (h : (if rm then s2 else s1) < 2 ^ 31) :
    (matrix_blas_wrapper.init tT tN rm tr s1 s2 st1 st2 i1 i2).ld < 2 ^ 31 := by
  subst h1 h2
  cases rm <;> simpa [matrix_blas_wrapper.init] using h

theorem wrapper_flags {T : Type} [DecidableEq T] (tT tN : T) (rm tr : Bool)
    (s1 s2 st1 st2 i1 i2 : Nat) :
    ((matrix_blas_wrapper.init tT tN rm tr s1 s2 st1 st2 i1 i2).trans = tT ∨
      (matrix_blas_wrapper.init tT tN rm tr s1 s2 st1 st2 i1 i2).trans = tN) ∧
    ((matrix_blas_wrapper.init tT tN rm tr s1 s2 st1 st2 i1 i2).negtrans = tT ∨
      (matrix_blas_wrapper.init tT tN rm tr s1 s2 st1 st2 i1 i2).negtrans = tN) := by
  simp only [matrix_blas_wrapper.init]
  constructor
  · split <;> simp
  · split <;> simp

theorem cublas_ref_gemm_eq {R : Type} [CommRing R] (ta tb : Char)
    (hta : ta = 'T' ∨ ta = 'N') (htb : tb = 'T' ∨ tb = 'N') (m n k : Int) (alpha : R)
    (a : (Nat → R) × Nat) (lda : Int) (b : (Nat → R) × Nat) (ldb : Int) (beta : R)
    (c : (Nat → R) × Nat) (ldc : Int) :
    cublas_ref_gemm ta tb m n k alpha a lda b ldb beta c ldc =
      ref_gemm_checked (char_dec ta) (char_dec tb) m n k alpha a lda b ldb beta c ldc := by
  rcases hta with rfl | rfl <;> rcases htb with rfl | rfl <;> rfl

theorem cblas_wrapper_gemm_eq {R : Type} [CommRing R] (g : gemm_args R) (hs : g.unit_strides)
    (hi : g.int_range) :
    cblas_wrapper_gemm cblas_ref_gemm g =
      (true, wrapper_call CBLAS_TRANSPOSE.CblasTrans CBLAS_TRANSPOSE.CblasNoTrans cblas_dec g) := by
  obtain ⟨a1, a2, b1, b2, c1, c2⟩ := hs
  obtain ⟨hM, hN, hK, hA, hB, hC⟩ := hi
  have hcond : ¬ (g.A_inc1 ≠ 1 ∨ g.A_inc2 ≠ 1 ∨ g.B_inc1 ≠ 1 ∨ g.B_inc2 ≠ 1 ∨
      g.C_inc1 ≠ 1 ∨ g.C_inc2 ≠ 1) := by
    simp [a1, a2, b1, b2, c1, c2]
  have lA := wrapper_ld_lt CBLAS_TRANSPOSE.CblasTrans CBLAS_TRANSPOSE.CblasNoTrans
    g.A_row_major g.is_A_trans g.A_internal_size1 g.A_internal_size2 g.A_start1 g.A_start2
    g.A_inc1 g.A_inc2 a1 a2 hA
  have lB := wrapper_ld_lt CBLAS_TRANSPOSE.CblasTrans CBLAS_TRANSPOSE.CblasNoTrans
    g.B_row_major g.is_B_trans g.B_internal_size1 g.B_internal_size2 g.B_start1 g.B_start2
    g.B_inc1 g.B_inc2 b1 b2 hB
  have lC := wrapper_ld_lt CBLAS_TRANSPOSE.CblasTrans CBLAS_TRANSPOSE.CblasNoTrans
    g.C_row_major false g.C_internal_size1 g.C_internal_size2 g.C_start1 g.C_start2
    g.C_inc1 g.C_inc2 c1 c2 hC
  rw [cblas_wrapper_gemm, if_neg hcond, wrapper_call]
  cases hrm : g.C_row_major
  · rw [hrm] at lC
    simp only [Bool.false_eq_true, if_false]
    congr 1
    exact ref_gemm_checked_eq _ _ _ _ _ _ _ _ _ _ _ _ _ hM hN hK lA lB lC
  · rw [hrm] at lC
    simp only [if_true]
    congr 1
    exact ref_gemm_checked_eq _ _ _ _ _ _ _ _ _ _ _ _ _ hN hM hK lB lA lC

theorem cublas_wrapper_gemm_eq {R : Type} [CommRing R] (g : gemm_args R) (hs : g.unit_strides)
    (hi : g.int_range) :
    cublas_wrapper_gemm cublas_ref_gemm g = (true, wrapper_call 'T' 'N' char_dec g) := by
  obtain ⟨a1, a2, b1, b2, c1, c2⟩ := hs
  obtain ⟨hM, hN, hK, hA, hB, hC⟩ := hi
  have hcond : ¬ (g.A_inc1 ≠ 1 ∨ g.A_inc2 ≠ 1 ∨ g.B_inc1 ≠ 1 ∨ g.B_inc2 ≠ 1 ∨
      g.C_inc1 ≠ 1 ∨ g.C_inc2 ≠ 1) := by
    simp [a1, a2, b1, b2, c1, c2]
  have lA := wrapper_ld_lt 'T' 'N'
    g.A_row_major g.is_A_trans g.A_internal_size1 g.A_internal_size2 g.A_start1 g.A_start2
    g.A_inc1 g.A_inc2 a1 a2 hA
  have lB := wrapper_ld_lt 'T' 'N'
    g.B_row_major g.is_B_trans g.B_internal_size1 g.B_internal_size2 g.B_start1 g.B_start2
    g.B_inc1 g.B_inc2 b1 b2 hB
  have lC := wrapper_ld_lt 'T' 'N'
    g.C_row_major false g.C_internal_size1 g.C_internal_size2 g.C_start1 g.C_start2
    g.C_inc1 g.C_inc2 c1 c2 hC
  rw [cublas_wrapper_gemm, if_neg hcond, wrapper_call]
  cases hrm : g.C_row_major
  · rw [hrm] at lC
    simp only [Bool.false_eq_true, if_false]
    rw [cublas_ref_gemm_eq _ _ (wrapper_flags _ _ _ _ _ _ _ _ _ _).2
      (wrapper_flags _ _ _ _ _ _ _ _ _ _).2,
      ref_gemm_checked_eq _ _ _ _ _ _ _ _ _ _ _ _ _ hM hN hK lA lB lC]
  · rw [hrm] at lC
    simp only [if_true]
    rw [cublas_ref_gemm_eq _ _ (wrapper_flags _ _ _ _ _ _ _ _ _ _).1
      (wrapper_flags _ _ _ _ _ _ _ _ _ _).1,
      ref_gemm_checked_eq _ _ _ _ _ _ _ _ _ _ _ _ _ hN hM hK lB lA lC]

/-! # Theorems for the claims -/

/-! ## Interval expansion: geometric sweep -/

/-- C1 (amended): for every `(min, max)` with `min` a power of two,
`min ≤ max` and `max < 2 ^ 31`, the doubling loop of `run_autotune` terminates
(every sufficient amount of fuel gives the same result) and the sequence it
produces starts at `min`, is strictly increasing, doubles at each step, and ends
at a value `≤ max` whose double is `> max`. -/
theorem pow2_loop_geometric (min max : Nat) (hpow : ∃ k, min = 2 ^ k)
    (hle : min ≤ max) (hmax : max < 2 ^ 31) :
    ∃ fuel xs, (∀ f, fuel ≤ f → pow2_loop f min max [] = some xs) ∧
      GeometricExpansion min max xs := by
  obtain ⟨k, rfl⟩ := hpow
  have hpos : 0 < 2 ^ k := Nat.pos_pow_of_pos k (by decide)
  obtain ⟨ys, hrun, hhead, -, hchain, -, hlast⟩ :=
    pow2_loop_run max hmax (max + 1 - 2 ^ k) (2 ^ k) [] hpos le_rfl
  rw [List.nil_append] at hrun
  refine ⟨max + 1 - 2 ^ k + 1, ys, ?_, hhead hle, ?_, ?_, ?_⟩
  · intro f hf
    obtain ⟨d, rfl⟩ := Nat.exists_eq_add_of_le hf
    exact pow2_loop_more_fuel max _ _ _ _ hrun d
  · have hlt : ys.Chain' (fun a b : Int => a < b) := hchain.imp (fun _ _ h => h.2)
    exact List.chain'_iff_pairwise.1 hlt
  · exact hchain.imp (fun _ _ h => h.1)
  · have hne : ys ≠ [] := by
      intro h
      have := hhead hle
      simp [h] at this
    refine ⟨ys.getLast hne, List.getLast?_eq_getLast _ hne, ?_⟩
    exact hlast _ (List.getLast?_eq_getLast _ hne)

/-- Witness for C1: the default interval `(2, 64)` satisfies the hypotheses, and
the loop yields `[2, 4, 8, 16, 32, 64]`. -/
theorem pow2_loop_geometric_witness :
    pow2_loop 7 2 64 [] = some [2, 4, 8, 16, 32, 64] ∧
    ∃ fuel xs, (∀ f, fuel ≤ f → pow2_loop f 2 64 [] = some xs) ∧
      GeometricExpansion 2 64 xs :=
  ⟨by decide, pow2_loop_geometric 2 64 ⟨1, by decide⟩ (by decide) (by decide)⟩

/-- Counterexample to C1 as stated: `min = 1` is a power of two and
`1 ≤ 2 ^ 31`, yet the loop never terminates on `(1, 2 ^ 31)`: after `2 ^ 31` the
counter wraps to `0`, which is `≤ max` and stays `0`. No sequence is produced. -/
theorem pow2_loop_geometric_counterexample :
    (∃ k, 1 = 2 ^ k) ∧ 1 ≤ 2 ^ 31 ∧
    (∀ fuel, pow2_loop fuel 1 (2 ^ 31) [] = none) ∧
    ¬ ∃ fuel xs, pow2_loop fuel 1 (2 ^ 31) [] = some xs ∧
        GeometricExpansion 1 (2 ^ 31) xs := by
  have hnone : ∀ fuel, pow2_loop fuel 1 (2 ^ 31) [] = none := by
    intro fuel
    refine pow2_loop_stuck (2 ^ 31) (0 :: (List.range 32).map (fun k => 2 ^ k)) ?_ fuel 1 [] ?_
    · decide
    · decide
  refine ⟨⟨0, rfl⟩, by decide, hnone, ?_⟩
  rintro ⟨fuel, xs, hrun, -⟩
  rw [hnone fuel] at hrun
  exact Option.noConfusion hrun

/-- C11: for every `min ≥ 1` and every `max < 2 ^ 31`, the doubling loop of
`run_autotune`, with `i *= 2` computed modulo `2 ^ 32`, terminates (any fuel
from 32 on gives the same result) and yields `n ≤ 32` values (in fact `n ≤ 31`),
none of which exceeds `max`. The values are the successive counters; every
counter that passes the test `i <= max` doubles without wrapping
(`i * 2 < 2 ^ 32`), and the first counter that fails the test is `> max`. -/
theorem pow2_loop_terminates_without_wrap (min max : Nat) (hmin : 1 ≤ min)
    (hmax : max < 2 ^ 31) :
    ∃ n xs, n ≤ 31 ∧ n ≤ 32 ∧ xs.length = n ∧
      (∀ f, 32 ≤ f → pow2_loop f min max [] = some xs) ∧
      (∀ x ∈ xs, x ≤ (max : Int)) ∧
      xs = (List.range n).map (fun k => (pow2_counter min k : Int)) ∧
      (∀ k, k < n → pow2_counter min k ≤ max ∧ pow2_counter min k * 2 < UINT_MOD) ∧
      max < pow2_counter min n := by
  obtain ⟨n, hrun, hall, hexit⟩ := pow2_loop_count max hmax (max + 1 - min) min [] hmin le_rfl
  rw [List.nil_append] at hrun
  have hn : n ≤ 31 := by
    by_contra hcon
    have h31 := hall 31 (by omega)
    have : 1 * 2 ^ 31 ≤ min * 2 ^ 31 := Nat.mul_le_mul_right _ hmin
    omega
  have hcount : ∀ k, k ≤ n → pow2_counter min k = min * 2 ^ k := fun k hk =>
    pow2_counter_eq min max hmax k (fun j hj => hall j (by omega))
  refine ⟨n, (List.range n).map (fun k => ((min * 2 ^ k : Nat) : Int)), hn, by omega,
    by simp, ?_, ?_, ?_, ?_, ?_⟩
  · intro f hf
    obtain ⟨d, rfl⟩ := Nat.exists_eq_add_of_le (by omega : n + 1 ≤ f)
    exact pow2_loop_more_fuel max _ _ _ _ hrun d
  · intro x hx
    obtain ⟨k, hk, rfl⟩ := List.mem_map.1 hx
    exact_mod_cast hall k (List.mem_range.1 hk)
  · apply List.map_congr_left
    intro k hk
    rw [hcount k (le_of_lt (List.mem_range.1 hk))]
  · intro k hk
    rw [hcount k (le_of_lt hk)]
    have := hall k hk
    unfold UINT_MOD
    constructor <;> omega
  · rw [hcount n le_rfl]
    exact hexit

/-- Witness for C11: `(min, max) = (3, 2147483647)`, the largest admitted `max`
with a `min` that is not a power of two; the loop yields the 30 values
`3, 6, …, 3 * 2 ^ 29`. -/
theorem pow2_loop_terminates_without_wrap_witness :
    pow2_loop 32 3 2147483647 [] =
      some ((List.range 30).map (fun k => ((3 * 2 ^ k : Nat) : Int))) ∧
    ∃ n xs, n ≤ 31 ∧ n ≤ 32 ∧ xs.length = n ∧
      (∀ f, 32 ≤ f → pow2_loop f 3 2147483647 [] = some xs) ∧
      (∀ x ∈ xs, x ≤ ((2147483647 : Nat) : Int)) ∧
      xs = (List.range n).map (fun k => (pow2_counter 3 k : Int)) ∧
      (∀ k, k < n → pow2_counter 3 k ≤ 2147483647 ∧ pow2_counter 3 k * 2 < UINT_MOD) ∧
      2147483647 < pow2_counter 3 n :=
  ⟨by decide, pow2_loop_terminates_without_wrap 3 2147483647 (by decide) (by decide)⟩

/-! ## Interval expansion: arithmetic sweep -/

/-- C2 (amended): for every `(min, max, step)` with `step > 0` and `min ≤ max`,
writing `n = (max - min) / step`, if the last value `min + n * step` fits the
`int` element type and the first value above `max`, `min + (n + 1) * step`, is
below `2 ^ 32` (the counter does not wrap), the stepping loop of `run_autotune`
terminates (every sufficient amount of fuel gives the same result) and produces
exactly `min, min + step, …, min + n * step` (`n + 1` values). -/
theorem step_loop_arithmetic (min max step : Nat) (hstep : 0 < step) (hle : min ≤ max)
    (hint : min + (max - min) / step * step < 2 ^ 31)
    (hwrap : min + ((max - min) / step + 1) * step < 2 ^ 32) :
    ∃ fuel, (∀ f, fuel ≤ f →
        step_loop f min max step [] = some (arithmetic_sequence min max step)) ∧
      (arithmetic_sequence min max step).length = (max - min) / step + 1 := by
  refine ⟨(max - min) / step + 2, ?_, by simp [arithmetic_sequence]⟩
  have h1 : (max - min) / step * step ≤ max - min := Nat.div_mul_le_self _ _
  have h2 : max - min < ((max - min) / step + 1) * step := by
    rw [Nat.add_mul, Nat.one_mul]
    exact Nat.lt_div_mul_add hstep
  have hrun := step_loop_run max step ((max - min) / step) min [] (by omega) (by omega)
    hint hwrap
  rw [List.nil_append] at hrun
  intro f hf
  obtain ⟨d, rfl⟩ := Nat.exists_eq_add_of_le hf
  exact step_loop_more_fuel max step _ _ _ _ hrun d

/-- Witness for C2: the default interval `(1, 1024, 16)` satisfies the
hypotheses; the loop yields 64 values, the last one 1009, and 1025 is not
among them. -/
theorem step_loop_arithmetic_witness :
    (arithmetic_sequence 1 1024 16).getLast? = some 1009 ∧
    (1025 : Int) ∉ arithmetic_sequence 1 1024 16 ∧
    (arithmetic_sequence 1 1024 16).length = 64 ∧
    ∃ fuel, (∀ f, fuel ≤ f →
        step_loop f 1 1024 16 [] = some (arithmetic_sequence 1 1024 16)) ∧
      (arithmetic_sequence 1 1024 16).length = (1024 - 1) / 16 + 1 :=
  ⟨by decide, by decide, by decide,
    step_loop_arithmetic 1 1024 16 (by decide) (by decide) (by decide) (by decide)⟩

/-- Counterexample to C2 as stated: `(min, max, step) = (1, 5, 4294967295)` has
`step > 0` and `min ≤ max`, and the promised sequence is `[1]`; the loop returns
`[1, 0]`, because `1 + 4294967295` wraps to `0`, which is `≤ 5`. -/
theorem step_loop_arithmetic_counterexample :
    0 < 4294967295 ∧ 1 ≤ 5 ∧ arithmetic_sequence 1 5 4294967295 = [1] ∧
    step_loop 3 1 5 4294967295 [] = some [1, 0] ∧
    ¬ ∃ fuel, step_loop fuel 1 5 4294967295 [] = some (arithmetic_sequence 1 5 4294967295) := by
  have hseq : arithmetic_sequence 1 5 4294967295 = [1] := by decide
  have hrun : ∀ fuel, step_loop (fuel + 3) 1 5 4294967295 [] = some [1, 0] := by
    intro fuel
    simp [step_loop, UINT_MOD, to_int]
  refine ⟨by decide, by decide, hseq, hrun 0, ?_⟩
  rintro ⟨fuel, h⟩
  rw [hseq] at h
  rcases fuel with _ | _ | _ | fuel
  · simp [step_loop] at h
  · simp [step_loop, UINT_MOD, to_int] at h
  · simp [step_loop, UINT_MOD, to_int] at h
  · rw [hrun fuel] at h
    simp at h

/-! ## Native BLAS dispatch -/

/-- C3 (amended): for every combination of the five layout and transposition
flags and every start offsets, internal sizes and `M`, `N`, `K`, with all six
strides equal to 1, with `M`, `N`, `K` and the three leading dimensions below
`2 ^ 31` (they are passed to `int` parameters) and with the blocks of `A`, `B`
and `C` fitting their matrices along the contiguous direction, the arguments
that the `gemm` wrappers (cblas and cublas) pass to the column-major routine
make that routine, at its reference semantics over a commutative ring, write
`alpha * op(A) * op(B) + beta * C` into the `M × N` block of `C` starting at
`(C_start1, C_start2)` in the storage order of `C`, leave the rest of `C`
unchanged, and the wrappers return true. -/
theorem gemm_computes_product {R : Type} [CommRing R] (g : gemm_args R)
    (hs : g.unit_strides) (hi : g.int_range) (hf : g.blocks_fit) :
    ((cblas_wrapper_gemm cblas_ref_gemm g).1 = true ∧
      g.product_written (cblas_wrapper_gemm cblas_ref_gemm g).2 ∧
      ∀ p, (∀ i < g.M, ∀ j < g.N, p ≠ g.C_index i j) →
        (cblas_wrapper_gemm cblas_ref_gemm g).2 p = g.Cp p) ∧
    ((cublas_wrapper_gemm cublas_ref_gemm g).1 = true ∧
      g.product_written (cublas_wrapper_gemm cublas_ref_gemm g).2 ∧
      ∀ p, (∀ i < g.M, ∀ j < g.N, p ≠ g.C_index i j) →
        (cublas_wrapper_gemm cublas_ref_gemm g).2 p = g.Cp p) := by
  rw [cblas_wrapper_gemm_eq g hs hi, cublas_wrapper_gemm_eq g hs hi]
  have h1 := wrapper_call_product CBLAS_TRANSPOSE.CblasTrans CBLAS_TRANSPOSE.CblasNoTrans
    cblas_dec rfl rfl g hs hf
  have h2 := wrapper_call_product 'T' 'N' char_dec rfl rfl g hs hf
  exact ⟨⟨rfl, h1.1, h1.2⟩, ⟨rfl, h2.1, h2.2⟩⟩

/-- Witness for C3: a row-major `A = (1 2; 3 4)`, a column-major `B = (5 6; 7 8)`
and a row-major `2 × 2` result; the storage of `C` ends as `19 22 43 50`. -/
theorem gemm_computes_product_witness :
    sample_gemm_args.unit_strides ∧ sample_gemm_args.int_range ∧ sample_gemm_args.blocks_fit ∧
    (List.range 4).map (cblas_wrapper_gemm cblas_ref_gemm sample_gemm_args).2 = [19, 22, 43, 50] ∧
    (List.range 4).map (cublas_wrapper_gemm cublas_ref_gemm sample_gemm_args).2 =
      [19, 22, 43, 50] ∧
    ((cblas_wrapper_gemm cblas_ref_gemm sample_gemm_args).1 = true ∧
      sample_gemm_args.product_written (cblas_wrapper_gemm cblas_ref_gemm sample_gemm_args).2 ∧
      ∀ p, (∀ i < sample_gemm_args.M, ∀ j < sample_gemm_args.N,
          p ≠ sample_gemm_args.C_index i j) →
        (cblas_wrapper_gemm cblas_ref_gemm sample_gemm_args).2 p = sample_gemm_args.Cp p) ∧
    ((cublas_wrapper_gemm cublas_ref_gemm sample_gemm_args).1 = true ∧
      sample_gemm_args.product_written (cublas_wrapper_gemm cublas_ref_gemm sample_gemm_args).2 ∧
      ∀ p, (∀ i < sample_gemm_args.M, ∀ j < sample_gemm_args.N,
          p ≠ sample_gemm_args.C_index i j) →
        (cublas_wrapper_gemm cublas_ref_gemm sample_gemm_args).2 p = sample_gemm_args.Cp p) :=
  ⟨by decide, by decide, by decide, by decide, by decide,
    gemm_computes_product sample_gemm_args (by decide) (by decide) (by decide)⟩

/-- Counterexample to C3 as stated, in two parts. First, all strides are 1 but
the `2 × 2` result block does not fit the row-major `C` of internal sizes
`2 × 1`: entries `(0, 1)` and `(1, 0)` of the block have the same offset while
the product has different values there, so no result storage holds the product,
in particular not the one left by the wrappers. Second, with `M = 2 ^ 31`, all
strides 1 and every block fitting its matrix, the wrappers pass `M` to an `int`
parameter, where it arrives as `- 2 ^ 31`; the routine rejects the call and
entry `(0, 0)` of `C` keeps its value `0` instead of the product `1`. -/
theorem gemm_product_counterexample :
    (aliased_gemm_args.unit_strides ∧ aliased_gemm_args.int_range ∧
      aliased_gemm_args.C_index 0 1 = aliased_gemm_args.C_index 1 0 ∧
      (¬ ∃ C', aliased_gemm_args.product_written C') ∧
      ¬ aliased_gemm_args.product_written
          (cblas_wrapper_gemm cblas_ref_gemm aliased_gemm_args).2 ∧
      ¬ aliased_gemm_args.product_written
          (cublas_wrapper_gemm cublas_ref_gemm aliased_gemm_args).2) ∧
    (narrowed_gemm_args.unit_strides ∧ narrowed_gemm_args.blocks_fit ∧
      size_to_int narrowed_gemm_args.M = -2147483648 ∧
      (cblas_wrapper_gemm cblas_ref_gemm narrowed_gemm_args).1 = true ∧
      (cublas_wrapper_gemm cublas_ref_gemm narrowed_gemm_args).1 = true ∧
      (cblas_wrapper_gemm cblas_ref_gemm narrowed_gemm_args).2
          (narrowed_gemm_args.C_index 0 0) = 0 ∧
      (cublas_wrapper_gemm cublas_ref_gemm narrowed_gemm_args).2
          (narrowed_gemm_args.C_index 0 0) = 0 ∧
      ¬ narrowed_gemm_args.product_written
          (cblas_wrapper_gemm cblas_ref_gemm narrowed_gemm_args).2 ∧
      ¬ narrowed_gemm_args.product_written
          (cublas_wrapper_gemm cublas_ref_gemm narrowed_gemm_args).2) := by
  have hno : ¬ ∃ C', aliased_gemm_args.product_written C' := by
    rintro ⟨C', h⟩
    have h01 := h 0 (by decide) 1 (by decide)
    have h10 := h 1 (by decide) 0 (by decide)
    simp [aliased_gemm_args, gemm_args.C_index, gemm_args.opA, gemm_args.opB, mat_index] at h01 h10
    rw [h01] at h10
    exact absurd h10 (by decide)
  have hprod : ∀ C' : Nat → Int, narrowed_gemm_args.product_written C' →
      C' (narrowed_gemm_args.C_index 0 0) = 1 := by
    intro C' h
    have h00 := h 0 (by decide) 0 (by decide)
    simpa [narrowed_gemm_args, gemm_args.C_index, gemm_args.opA, gemm_args.opB, mat_index]
      using h00
  have hcblas : (cblas_wrapper_gemm cblas_ref_gemm narrowed_gemm_args).2
      (narrowed_gemm_args.C_index 0 0) = 0 := by decide
  have hcublas : (cublas_wrapper_gemm cublas_ref_gemm narrowed_gemm_args).2
      (narrowed_gemm_args.C_index 0 0) = 0 := by decide
  refine ⟨⟨by decide, by decide, rfl, hno, fun h => hno ⟨_, h⟩, fun h => hno ⟨_, h⟩⟩,
    ⟨by decide, by decide, by decide, by decide, by decide, hcblas, hcublas, ?_, ?_⟩⟩
  · intro h
    have := hprod _ h
    rw [hcblas] at this
    exact absurd this (by decide)
  · intro h
    have := hprod _ h
    rw [hcublas] at this
    exact absurd this (by decide)

/-- C4: for every external routine and every argument list, each `gemm` wrapper
(cblas and cublas, for either scalar type) returns true if and only if all six
strides equal 1; otherwise it returns false and the storage of `C` is the one it
was given, whatever the external routine does. -/
theorem gemm_returns_true_iff_unit_strides {R : Type} (cblas_gemm : cblas_gemm_routine R)
    (cublas_gemm : cublas_gemm_routine R) (g : gemm_args R) :
    ((cblas_wrapper_gemm cblas_gemm g).1 = true ↔ g.unit_strides) ∧
    (g.unit_strides ∨ cblas_wrapper_gemm cblas_gemm g = (false, g.Cp)) ∧
    ((cublas_wrapper_gemm cublas_gemm g).1 = true ↔ g.unit_strides) ∧
    (g.unit_strides ∨ cublas_wrapper_gemm cublas_gemm g = (false, g.Cp)) := by
  by_cases hs : g.unit_strides
  · have hcond : ¬ (g.A_inc1 ≠ 1 ∨ g.A_inc2 ≠ 1 ∨ g.B_inc1 ≠ 1 ∨ g.B_inc2 ≠ 1 ∨
        g.C_inc1 ≠ 1 ∨ g.C_inc2 ≠ 1) := by
      obtain ⟨a1, a2, b1, b2, c1, c2⟩ := hs
      simp [a1, a2, b1, b2, c1, c2]
    refine ⟨⟨fun _ => hs, fun _ => ?_⟩, Or.inl hs, ⟨fun _ => hs, fun _ => ?_⟩, Or.inl hs⟩
    · rw [cblas_wrapper_gemm, if_neg hcond]
      cases g.C_row_major <;> rfl
    · rw [cublas_wrapper_gemm, if_neg hcond]
      cases g.C_row_major <;> rfl
  · have hcond : g.A_inc1 ≠ 1 ∨ g.A_inc2 ≠ 1 ∨ g.B_inc1 ≠ 1 ∨ g.B_inc2 ≠ 1 ∨
        g.C_inc1 ≠ 1 ∨ g.C_inc2 ≠ 1 := by
      unfold gemm_args.unit_strides at hs
      by_contra hc
      simp only [not_or, not_not] at hc
      exact hs hc
    have e1 : cblas_wrapper_gemm cblas_gemm g = (false, g.Cp) := by
      rw [cblas_wrapper_gemm, if_pos hcond]
    have e2 : cublas_wrapper_gemm cublas_gemm g = (false, g.Cp) := by
      rw [cublas_wrapper_gemm, if_pos hcond]
    refine ⟨⟨fun h => ?_, fun h => absurd h hs⟩, Or.inr e1, ⟨fun h => ?_, fun h => absurd h hs⟩,
      Or.inr e2⟩
    · rw [e1] at h; exact Bool.noConfusion h
    · rw [e2] at h; exact Bool.noConfusion h

/-- C12: for every `is_row_major`, `is_transposed` and every pair of distinct
flag values `(_trans, _notrans)`, the member `trans` of `matrix_blas_wrapper`
equals `_trans` exactly when `is_transposed` equals `is_row_major` and equals
`_notrans` otherwise; `negtrans` is the other flag, so `trans` and `negtrans`
are never equal; and swapping `is_row_major` swaps the two members. -/
theorem matrix_blas_wrapper_flags {T : Type} [DecidableEq T] (_trans _notrans : T)
    (hdistinct : _trans ≠ _notrans) (is_row_major is_transposed : Bool)
    (internal_size1 internal_size2 start1 start2 stride1 stride2 : Nat) :
    ((matrix_blas_wrapper.init _trans _notrans is_row_major is_transposed
        internal_size1 internal_size2 start1 start2 stride1 stride2).trans = _trans ↔
      is_transposed = is_row_major) ∧
    ((matrix_blas_wrapper.init _trans _notrans is_row_major is_transposed
        internal_size1 internal_size2 start1 start2 stride1 stride2).trans = _notrans ↔
      is_transposed ≠ is_row_major) ∧
    ((matrix_blas_wrapper.init _trans _notrans is_row_major is_transposed
        internal_size1 internal_size2 start1 start2 stride1 stride2).negtrans = _notrans ↔
      is_transposed = is_row_major) ∧
    ((matrix_blas_wrapper.init _trans _notrans is_row_major is_transposed
        internal_size1 internal_size2 start1 start2 stride1 stride2).negtrans = _trans ↔
      is_transposed ≠ is_row_major) ∧
    (matrix_blas_wrapper.init _trans _notrans is_row_major is_transposed
        internal_size1 internal_size2 start1 start2 stride1 stride2).trans ≠
      (matrix_blas_wrapper.init _trans _notrans is_row_major is_transposed
        internal_size1 internal_size2 start1 start2 stride1 stride2).negtrans ∧
    (matrix_blas_wrapper.init _trans _notrans (!is_row_major) is_transposed
        internal_size1 internal_size2 start1 start2 stride1 stride2).trans =
      (matrix_blas_wrapper.init _trans _notrans is_row_major is_transposed
        internal_size1 internal_size2 start1 start2 stride1 stride2).negtrans ∧
    (matrix_blas_wrapper.init _trans _notrans (!is_row_major) is_transposed
        internal_size1 internal_size2 start1 start2 stride1 stride2).negtrans =
      (matrix_blas_wrapper.init _trans _notrans is_row_major is_transposed
        internal_size1 internal_size2 start1 start2 stride1 stride2).trans := by
  have hne : ¬ _notrans = _trans := fun h => hdistinct h.symm
  cases is_row_major <;> cases is_transposed <;>
    simp [matrix_blas_wrapper.init, hdistinct, hne]

/-- Witness for C12: the flags `'T'` and `'N'` of the cublas wrappers, for a
row-major operand that is not transposed: `trans` is `'N'`, `negtrans` is `'T'`. -/
theorem matrix_blas_wrapper_flags_witness :
    (matrix_blas_wrapper.init 'T' 'N' true false 4 6 1 2 1 1).trans = 'N' ∧
    (matrix_blas_wrapper.init 'T' 'N' true false 4 6 1 2 1 1).negtrans = 'T' ∧
    ((matrix_blas_wrapper.init 'T' 'N' true false 4 6 1 2 1 1).trans = 'T' ↔
      false = true) :=
  ⟨by decide, by decide,
    (matrix_blas_wrapper_flags 'T' 'N' (by decide) true false 4 6 1 2 1 1).1⟩

/-- C13: for every `internal_size1`, `internal_size2`, `start1`, `start2` and
unit strides, the member `ld` of `matrix_blas_wrapper` is the storage leading
dimension (`internal_size2` for row-major, `internal_size1` for column-major)
and `off` is the linear index of element `(start1, start2)` in that storage
order: `start1 * ld + start2` for row-major, `start2 * ld + start1` for
column-major (offsets are natural numbers, no `size_t` overflow). -/
theorem matrix_blas_wrapper_addressing {T : Type} [DecidableEq T] (_trans _notrans : T)
    (is_row_major is_transposed : Bool)
    (internal_size1 internal_size2 start1 start2 stride1 stride2 : Nat)
    (h1 : stride1 = 1) (h2 : stride2 = 1) :
    (matrix_blas_wrapper.init _trans _notrans is_row_major is_transposed
        internal_size1 internal_size2 start1 start2 stride1 stride2).ld =
      (if is_row_major then internal_size2 else internal_size1) ∧
    (matrix_blas_wrapper.init _trans _notrans is_row_major is_transposed
        internal_size1 internal_size2 start1 start2 stride1 stride2).off =
      (if is_row_major then
        start1 * (matrix_blas_wrapper.init _trans _notrans is_row_major is_transposed
          internal_size1 internal_size2 start1 start2 stride1 stride2).ld + start2
      else
        start2 * (matrix_blas_wrapper.init _trans _notrans is_row_major is_transposed
          internal_size1 internal_size2 start1 start2 stride1 stride2).ld + start1) ∧
    (matrix_blas_wrapper.init _trans _notrans is_row_major is_transposed
        internal_size1 internal_size2 start1 start2 stride1 stride2).off =
      mat_index is_row_major internal_size1 internal_size2 0 0 start1 start2 := by
  subst h1 h2
  cases is_row_major
  · simp [matrix_blas_wrapper.init, mat_index]
    ring
  · simp [matrix_blas_wrapper.init, mat_index]

/-- Witness for C13: a row-major matrix with internal sizes `4 × 6` and a block
starting at `(1, 2)`: `ld = 6` and `off = 1 * 6 + 2 = 8`. -/
theorem matrix_blas_wrapper_addressing_witness :
    (matrix_blas_wrapper.init 'T' 'N' true false 4 6 1 2 1 1).ld = 6 ∧
    (matrix_blas_wrapper.init 'T' 'N' true false 4 6 1 2 1 1).off = 8 ∧
    (matrix_blas_wrapper.init 'T' 'N' true false 4 6 1 2 1 1).off =
      mat_index true 4 6 0 0 1 2 :=
  ⟨by decide, by decide,
    (matrix_blas_wrapper_addressing 'T' 'N' true false 4 6 1 2 1 1 rfl rfl).2.2⟩

/-! ## Best profile -/

/-- C5: for every non-empty result map, `run_autotune` reports a best profile;
the reported duration is `≤` the duration of every entry of the map, and the
reported profile is the one stored in the map under the reported duration. -/
theorem run_autotune_reports_minimum {K V : Type} [LinearOrder K] (t : timings_map K V)
    (hne : t.entries ≠ []) :
    ∃ d p, run_autotune_report t = some (Report.best_profile d p) ∧
      (∀ e ∈ t.entries, d ≤ e.1) ∧ (d, p) ∈ t.entries ∧ t.find d = some p := by
  obtain ⟨entries, hasc⟩ := t
  cases entries with
  | nil => exact absurd rfl hne
  | cons e l =>
    refine ⟨e.1, e.2, rfl, chain_head_le l e hasc, List.mem_cons_self _ _, ?_⟩
    simp [timings_map.find]

/-- Witness for C5: a map with three timings; the report is the entry with the
smallest duration. -/
theorem run_autotune_reports_minimum_witness :
    sample_timings.entries ≠ [] ∧
    ∃ d p, run_autotune_report sample_timings = some (Report.best_profile d p) ∧
      (∀ e ∈ sample_timings.entries, d ≤ e.1) ∧ (d, p) ∈ sample_timings.entries ∧
      sample_timings.find d = some p :=
  ⟨by simp [sample_timings], run_autotune_reports_minimum sample_timings (by simp [sample_timings])⟩

/-- C6 (evaluation of the code on the empty result set): `run_autotune` has no
test for emptiness. On the empty map it reads through `timings.begin()`, which
equals `timings.end()`, and whatever that read yields is printed as the "Best
Profile"; it never reports the "no viable configuration" condition. The claim
asks for that report and for no read of a best entry. -/
theorem run_autotune_reads_empty_result_set {K V : Type} [LinearOrder K]
    (past_end : Option (K × V)) :
    run_autotune_output past_end (timings_map.empty : timings_map K V) =
      past_end.map (fun e => Report.best_profile e.1 e.2) ∧
    run_autotune_output past_end (timings_map.empty : timings_map K V) ≠
      some Report.no_viable_profile ∧
    run_autotune_report (timings_map.empty : timings_map K V) ≠
      some Report.no_viable_profile := by
  refine ⟨rfl, ?_, ?_⟩
  · cases past_end <;> simp [run_autotune_output, timings_map.empty]
  · simp [run_autotune_report, timings_map.empty]

/-! ## Inverted intervals -/

/-- C7 (amended): for every interval with `min > max`, geometric or arithmetic,
the expansion loop does not fail: its condition is false on entry and it returns
the empty sequence. -/
theorem inverted_interval_yields_empty (min max step fuel : Nat) (h : max < min) :
    pow2_loop (fuel + 1) min max [] = some [] ∧
    step_loop (fuel + 1) min max step [] = some [] := by
  have hn : ¬ min ≤ max := Nat.not_le.2 h
  constructor
  · rw [pow2_loop, if_neg hn]
  · rw [step_loop, if_neg hn]

/-- Witness for C7: the inverted interval `(64, 2)` (step 16 for the arithmetic
loop). -/
theorem inverted_interval_yields_empty_witness :
    2 < 64 ∧ pow2_loop (0 + 1) 64 2 [] = some [] ∧
      step_loop (0 + 1) 64 2 16 [] = some [] :=
  ⟨by decide, inverted_interval_yields_empty 64 2 16 0 (by decide)⟩

/-- Counterexample to C7 as stated: `(64, 2)` has `min > max`, and both loops
return a sequence (the empty one) instead of failing. -/
theorem inverted_interval_counterexample :
    2 < 64 ∧ (∃ fuel xs, pow2_loop fuel 64 2 [] = some xs) ∧
      (∃ fuel xs, step_loop fuel 64 2 16 [] = some xs) :=
  ⟨by decide, ⟨1, [], by decide⟩, ⟨1, [], by decide⟩⟩

/-! ## Device selection -/

/-- C8 (amended): for every list of platforms with at most `2 ^ 32` devices in
total and every options value whose scalar type is `"float"` or `"double"` (the
values that `get_options` admits), `main` runs the autotuning exactly once, on
the `d`-th (0-based) device of the concatenated device lists, when the requested
index `d` is smaller than the total number of devices, and runs it on no device
when `d` is greater than or equal to that total. -/
theorem main_runs_on_requested_device {Dev : Type} (options : autotuner_options)
    (platforms : List (List Dev)) (htotal : platforms.flatten.length ≤ UINT_MOD)
    (hS : options.scalartype = "float" ∨ options.scalartype = "double") :
    (∀ hd : options.requested_device < platforms.flatten.length,
      main options platforms =
        [(if options.scalartype = "float" then ScalarType.float else ScalarType.double,
          platforms.flatten[options.requested_device])]) ∧
    (platforms.flatten.length ≤ options.requested_device → main options platforms = []) := by
  have hfold := main_platforms_fold options platforms 0 [] (by omega)
  rw [Nat.zero_mod] at hfold
  have hmain : main options platforms =
      (platforms.flatten[options.requested_device]?).elim [] (main_dispatch options) := by
    rw [main, hfold]
    simp
  constructor
  · intro hd
    rw [hmain, List.getElem?_eq_getElem hd]
    rcases hS with h | h
    · simp [main_dispatch, h]
    · have hne : ¬ options.scalartype = "float" := by rw [h]; decide
      simp [main_dispatch, h]
  · intro hd
    rw [hmain, List.getElem?_eq_none hd]
    rfl

/-- Witness for C8: two platforms with devices `[10, 11]` and `[12]`, scalar type
`"double"`, requested device 2: the only run is on device `12`. -/
theorem main_runs_on_requested_device_witness :
    main ⟨"Nx", "double", "out.dat", 2, "1,1", "2,64", "2,64", "1,1024,16"⟩ [[10, 11], [12]] =
      [(ScalarType.double, 12)] :=
  (main_runs_on_requested_device
    ⟨"Nx", "double", "out.dat", 2, "1,1", "2,64", "2,64", "1,1024,16"⟩ [[10, 11], [12]]
    (by decide) (Or.inr rfl)).1 (by decide)

/-- Counterexample to C8 as stated: with `2 ^ 32 + 1` devices on one platform and
requested device 0, the `unsigned int` counter wraps to 0 at the last device and
the autotuning runs twice. Besides, for an options value whose scalar type is
neither `"float"` nor `"double"` nothing is run on the selected device. -/
theorem main_device_counterexample :
    main ⟨"Nx", "float", "out.dat", 0, "1,1", "2,64", "2,64", "1,1024,16"⟩
        [List.replicate (2 ^ 32) () ++ [()]] =
      [(ScalarType.float, ()), (ScalarType.float, ())] ∧
    main ⟨"Nx", "half", "out.dat", 0, "1,1", "2,64", "2,64", "1,1024,16"⟩ [[()]] = [] :=
  ⟨main_wraps_after_uint_mod (List.replicate (2 ^ 32) ()) (List.length_replicate _ _), by decide⟩

/-! ## Profile construction and forced key -/

/-- C9 (amended): for every parameter map that has entries for the four names
`"vector"`, `"local_size1"`, `"local_size2"`, `"num_groups"`,
`create_profile` returns the profile whose four fields are, in this order, the
current values of these parameters. -/
theorem create_profile_of_present (params : List (String × tuning_param))
    (v l1 l2 g : tuning_param)
    (hv : params.lookup "vector" = some v)
    (hl1 : params.lookup "local_size1" = some l1)
    (hl2 : params.lookup "local_size2" = some l2)
    (hg : params.lookup "num_groups" = some g) :
    create_profile params = Except.ok ⟨v.current, l1.current, l2.current, g.current⟩ := by
  simp only [create_profile, map_at, hv, hl1, hl2, hg]
  rfl

/-- Witness for C9: a map with the four parameters (and their candidate values). -/
theorem create_profile_of_present_witness :
    create_profile
      [("local_size1", ⟨[2, 4], 4⟩), ("local_size2", ⟨[2, 4, 8], 8⟩),
       ("num_groups", ⟨[1, 17, 33], 17⟩), ("vector", ⟨[1], 1⟩)] =
      Except.ok ⟨1, 4, 8, 17⟩ :=
  create_profile_of_present _ ⟨[1], 1⟩ ⟨[2, 4], 4⟩ ⟨[2, 4, 8], 8⟩ ⟨[1, 17, 33], 17⟩
    rfl rfl rfl rfl

/-- Counterexample to C9 as stated: on a parameter map without the name
`"num_groups"` (and on the empty map) `create_profile` does not return a
profile: `std::map::at` throws `std::out_of_range`. -/
theorem create_profile_counterexample :
    create_profile
      [("local_size1", ⟨[2, 4], 4⟩), ("local_size2", ⟨[2, 4, 8], 8⟩), ("vector", ⟨[1], 1⟩)] =
      Except.error map_error.out_of_range ∧
    create_profile [] = Except.error map_error.out_of_range := by
  constructor <;> rfl

/-- C10: for every options value and scalar type, the key returned by `make_key`
has the non-transposed tag exactly when `make_statement` builds `y = prod(A, x)`,
which is when the layout is `"Nx"`; it has the transposed tag exactly when
`make_statement` builds `y = prod(trans(A), x)`, which is for any other layout;
its second component is the scalar size, 4 for `float` and 8 for `double`. -/
theorem make_key_matches_make_statement {Mat Vec : Type} (options : autotuner_options)
    (S : ScalarType) (y : Vec) (A : Mat) (x : Vec) :
    ((make_key S options).1 = expression_type.VECTOR_REDUCE_Nx_TYPE ↔
      make_statement options y A x = ⟨y, prod_expression.prod A x⟩) ∧
    ((make_key S options).1 = expression_type.VECTOR_REDUCE_Tx_TYPE ↔
      make_statement options y A x = ⟨y, prod_expression.prod_trans A x⟩) ∧
    ((make_key S options).1 = expression_type.VECTOR_REDUCE_Nx_TYPE ↔
      options.layout = "Nx") ∧
    ((make_key S options).1 = expression_type.VECTOR_REDUCE_Tx_TYPE ↔
      options.layout ≠ "Nx") ∧
    (make_key S options).2 = sizeof S ∧
    sizeof ScalarType.float = 4 ∧ sizeof ScalarType.double = 8 := by
  by_cases h : options.layout = "Nx"
  · simp [make_key, make_statement, h, sizeof]
  · simp [make_key, make_statement, h, sizeof]

end ViennaCL
